import Mathlib

set_option maxHeartbeats 1000000

namespace ArrayStream

/-! A shallow embedding of the ArrayStream write-rotation engine
(src/ArrayStream.js).  File contents and JSON texts are modelled as lists
of characters; the output directory is a finite list of optional file
contents indexed by the numeric key embedded in generated file names
(the FileNamer padding is injective on indices, so the index is the
identity of a produced file). -/

abbrev Content := List Char

/-- Scanner state used to recognise the elements of a serialized JSON
array: bracket/brace nesting depth, whether the scanner is inside a
string literal, and whether the previous character was a backslash. -/
structure ScanSt where
  depth : Nat
  inStr : Bool
  esc : Bool
deriving DecidableEq, Repr

def initScan : ScanSt := ⟨0, false, false⟩

/-- One step of the JSON surface scanner. -/
def consume (s : ScanSt) (c : Char) : ScanSt :=
  if s.inStr then
    if s.esc then { s with esc := false }
    else if c = '\\' then { s with esc := true }
    else if c = '\"' then { s with inStr := false }
    else s
  else if c = '\"' then { s with inStr := true }
  else if c = '[' ∨ c = '\x7b' then { s with depth := s.depth + 1 }
  else if c = ']' ∨ c = '\x7d' then { s with depth := s.depth - 1 }
  else s

/-- Scan a text refusing top-level commas; returns the final scanner
state, or `none` if a top-level comma occurs. -/
def scanA : ScanSt → Content → Option ScanSt
  | s, [] => some s
  | s, c :: cs =>
    if s.depth = 0 ∧ s.inStr = false ∧ c = ',' then none
    else scanA (consume s c) cs

/-- A text that is a single well-formed JSON value: nonempty, balanced,
and free of top-level commas.  `JSON.stringify` output always satisfies
this. -/
def IsAtom (e : Content) : Prop := e ≠ [] ∧ scanA initScan e = some initScan

instance (e : Content) : Decidable (IsAtom e) := by
  unfold IsAtom; infer_instance

/-- Split a JSON array body at its top-level commas (accumulator holds
the current element reversed). -/
def splitTopAux : ScanSt → Content → Content → List Content
  | _, acc, [] => [acc.reverse]
  | s, acc, c :: cs =>
    if s.depth = 0 ∧ s.inStr = false ∧ c = ',' then
      acc.reverse :: splitTopAux initScan [] cs
    else splitTopAux (consume s c) (c :: acc) cs

def splitTop (l : Content) : List Content := splitTopAux initScan [] l

/-- Decode a file produced by the engine as a JSON array: the file must
be of the form `[` body `]\n`; its elements are the top-level
comma-separated pieces of the body. -/
def decodeJsonArray (c : Content) : Option (List Content) :=
  if 3 ≤ c.length ∧ c.take 1 = ['['] ∧ c.drop (c.length - 2) = [']', '\n'] then
    let mid := (c.drop 1).take (c.length - 3)
    if mid = [] then some [] else some (splitTop mid)
  else none

/-- Join serialized elements with the element separator `,`
(lib/constants SEPARATOR). -/
def joinC : List Content → Content
  | [] => []
  | e :: es => e ++ (es.map (fun x => ',' :: x)).flatten

/-- The byte image of a finalized file holding the given elements:
`[` elements-joined-by-commas `]\n`. -/
def renderFile (els : List Content) : Content :=
  '[' :: joinC els ++ [']', '\n']

/-! The engine state, mirroring the fields of the `ArrayStream` class. -/

abbrev Disk := List (Option Content)

def diskGet (d : Disk) (j : Nat) : Option Content := d.getD j none

def diskSet (d : Disk) (j : Nat) (c : Content) : Disk :=
  (d ++ List.replicate (j + 1 - d.length) none).set j (some c)

/-- The already-validated, defaulted configuration fields the engine
reads (lib/ConfigValidator guarantees `maxItems ≥ 1` and that `append`
and `overwrite` are not both true).  The external joi validator is
abstracted by `hasValidator` plus a predicate passed to `write`. -/
structure Config where
  maxItems : Nat
  overwrite : Bool
  append : Bool
  lazy : Bool
  hasValidator : Bool
deriving DecidableEq, Repr

/-- Mutable fields of an `ArrayStream` instance: `sep`, `count`,
`fileCount`, `key`, `files`, `destroyed`, the open write stream
(file index and write position), and the directory contents. -/
structure EngineState where
  sep : Content
  count : Nat
  fileCount : Nat
  key : Nat
  files : List Nat
  destroyed : Bool
  outstream : Option (Nat × Nat)
  disk : Disk
deriving DecidableEq, Repr

/-- `incrementKey` (ArrayStream.js lines 218-227): the current key is
generated from `fileCount`, which is then advanced. -/
def incrementKey (st : EngineState) : EngineState :=
  { st with key := st.fileCount, fileCount := st.fileCount + 1 }

/-- The collision-avoidance loop of `openOutstream` (lines 309-320):
while a file exists at the current key, advance the key.  The loop in
the source is unbounded; fuel `disk.length + 1` always suffices because
every index beyond the directory length is free. -/
def collideLoop : EngineState → Nat → EngineState
  | st, 0 => st
  | st, fuel + 1 =>
    if diskGet st.disk st.key = none then st
    else collideLoop (incrementKey st) fuel

/-- The trailing-byte probe of `openOutstream` (lines 342-356): with
file size ≥ 3 read the byte at offset size - 3; a separator is needed
unless that byte is `[` or `,`. -/
def probeSep (c : Content) : Bool :=
  if 3 ≤ c.length then
    match c.get? (c.length - 3) with
    | some ch => if ch = '[' ∨ ch = ',' then false else true
    | none => false
  else false

/-- The overwrite branch of `openOutstream` (lines 367-379): create or
truncate the file, write the opening `[`, clear the separator. -/
def openFresh (st : EngineState) : EngineState :=
  { st with disk := diskSet st.disk st.key ['['],
            outstream := some (st.key, 1), sep := [] }

/-- `openOutstream` (lines 305-380).  Default policy runs the collision
loop first.  The opened path is appended to `files`.  With `overwrite`,
or when no file exists at the key, the fresh branch runs.  Otherwise the
append branch probes the trailing bytes and opens positioned at
size - 2; a size below 2 makes `createWriteStream` throw on the negative
start offset, which the source catches by falling into the overwrite
branch. -/
def openOutstream (cfg : Config) (st : EngineState) : EngineState :=
  let st1 := if cfg.append = false ∧ cfg.overwrite = false then
               collideLoop st (st.disk.length + 1)
             else st
  let st2 := { st1 with files := st1.files ++ [st1.key] }
  if cfg.overwrite then openFresh st2
  else
    match diskGet st2.disk st2.key with
    | none => openFresh st2
    | some c =>
      if c.length < 2 then openFresh st2
      else { st2 with outstream := some (st2.key, c.length - 2),
                      sep := if probeSep c then [','] else [] }

/-- A write on the open stream handle: bytes land at the current
position, overwriting what was there and extending the file. -/
def streamWrite (st : EngineState) (s : Content) : EngineState :=
  match st.outstream with
  | none => st
  | some (i, pos) =>
    let old := (diskGet st.disk i).getD []
    let c := old.take pos ++ s ++ old.drop (pos + s.length)
    { st with disk := diskSet st.disk i c,
              outstream := some (i, pos + s.length) }

/-- `resetOutstream` (lines 180-211): write the terminator `]\n` to the
open stream if any; then either clear the stream (final) or reset the
count, advance the key and open the next stream. -/
def resetOutstream (cfg : Config) (st : EngineState) (final : Bool) :
    EngineState :=
  let st1 := match st.outstream with
             | some _ => streamWrite st [']', '\n']
             | none => st
  if final then { st1 with outstream := none }
  else openOutstream cfg (incrementKey { st1 with count := 0 })

/-- `flushOutstream` (lines 389-399): a no-op once destroyed; the final
flush marks the engine destroyed before resetting. -/
def flushOutstream (cfg : Config) (st : EngineState) (final : Bool) :
    EngineState :=
  if st.destroyed then st
  else resetOutstream cfg (if final then { st with destroyed := true } else st)
    final

/-- `_final` (lines 139-146): the finalization path run by
`closeArrayStream`. -/
def finalize (cfg : Config) (st : EngineState) : EngineState :=
  flushOutstream cfg st true

/-- Items presented to `write`: byte buffers and strings pass through
unchanged; other objects carry their `JSON.stringify` image when
serialization succeeds (`obj (some e) _`), or `none` plus the JS
string coercion used by `sep + chunk` when `JSON.stringify` throws
(`obj none coerce`, e.g. a circular object coercing to
`[object Object]`). -/
inductive Item where
  | buf (s : Content)
  | str (s : Content)
  | obj (enc : Option Content) (coerce : Content)
deriving DecidableEq, Repr

/-- The on-disk encoding of an item, when encoding succeeds. -/
def encOf : Item → Option Content
  | .buf s => some s
  | .str s => some s
  | .obj e _ => e

/-- The bytes `sep + chunk` actually appends for an item: the encoding
when it exists, and otherwise the JS string coercion of the raw chunk
(the missing `return` after the stringify catch lets the raw chunk
reach the write). -/
def writtenOf : Item → Content
  | .buf s => s
  | .str s => s
  | .obj (some e) _ => e
  | .obj none co => co

/-- Errors a write can report through its callback. -/
inductive WError where
  | validation
  | encoding
  | io
  | closed
deriving DecidableEq, Repr

/-- The tail of `_write` (lines 111-130): write `sep + chunk`, then set
the separator if it was empty and advance the count.  A missing stream
handle makes `outstream.write` throw, reported as an error. -/
def pushItem (st : EngineState) (w : Content)
    (events : List (Option WError)) : EngineState × List (Option WError) :=
  match st.outstream with
  | none => (st, events ++ [some .io])
  | some _ =>
    let sepUsed := st.sep
    let st1 := streamWrite st (sepUsed ++ w)
    let st2 := { st1 with sep := if sepUsed = [] then [','] else sepUsed,
                          count := st1.count + 1 }
    (st2, events ++ [none])

/-- `_write` (lines 88-130), faithfully: the destroyed check fires the
callback but does not return; the lazy open runs before validation; a
validation failure returns; a stringify failure reports an encoding
error but falls through (no `return`), so the coerced chunk is written;
a full file rotates before the write. -/
def arrWrite (cfg : Config) (validate : Item → Bool) (st : EngineState)
    (it : Item) : EngineState × List (Option WError) :=
  let pre : List (Option WError) := if st.destroyed then [none] else []
  let st1 := if cfg.lazy ∧ st.outstream = none then openOutstream cfg st else st
  if cfg.hasValidator ∧ validate it = false then
    (st1, pre ++ [some .validation])
  else
    let encEv : List (Option WError) :=
      match it with
      | .obj none _ => [some .encoding]
      | _ => []
    if cfg.maxItems ≤ st1.count then
      pushItem (resetOutstream cfg st1 false) (writtenOf it) (pre ++ encEv)
    else
      pushItem st1 (writtenOf it) (pre ++ encEv)

/-- Modelled from the spec: the post-finalization write gate lives in
the node `stream.Writable` base class that `ArrayStream` extends, which
is not part of this repository's sources.  Per the spec, `write(item)`
on a `Closed` engine fails with a "stream closed" error and the engine
state is unaffected; otherwise the call is dispatched to the
repository's `_write` (`arrWrite`). -/
def write (cfg : Config) (validate : Item → Bool) (st : EngineState)
    (it : Item) : EngineState × List (Option WError) :=
  if st.destroyed then (st, [some .closed])
  else arrWrite cfg validate st it

/-- Submit a sequence of items, in order. -/
def writeAll (cfg : Config) (validate : Item → Bool) (st : EngineState)
    (items : List Item) : EngineState :=
  items.foldl (fun s it => (write cfg validate s it).1) st

/-- `getTotalCount` (lines 259-263). -/
def getTotalCount (cfg : Config) (st : EngineState) : Nat :=
  if 1 < st.files.length then
    (st.files.length - 1) * cfg.maxItems + st.count
  else st.count

/-- The constructor (lines 17-58): counters cleared, one `incrementKey`,
and an eager open unless lazy. -/
def initEngine (cfg : Config) (d : Disk) : EngineState :=
  let st : EngineState :=
    { sep := [], count := 0, fileCount := 0, key := 0, files := [],
      destroyed := false, outstream := none, disk := d }
  let st1 := incrementKey st
  if cfg.lazy then st1 else openOutstream cfg st1

/-! A specification-level rotation machine used to describe the engine
state reached after a run of valid writes, together with the simulation
between the two. -/

/-- Element lists of the already rotated-out files, and elements of the
file currently open. -/
structure RefSt where
  closedEls : List (List Content)
  curEls : List Content
deriving DecidableEq, Repr

def refStep (M : Nat) (r : RefSt) (w : Content) : RefSt :=
  if M ≤ r.curEls.length then ⟨r.closedEls ++ [r.curEls], [w]⟩
  else ⟨r.closedEls, r.curEls ++ [w]⟩

def refRun (M : Nat) (ws : List Content) : RefSt :=
  ws.foldl (refStep M) ⟨[], []⟩

/-- Relation between the engine state and the reference machine while a
freshly constructed default-policy stream is mid-run (at least one item
written, not yet finalized). -/
structure SimInv (M : Nat) (r : RefSt) (st : EngineState) : Prop where
  dest : st.destroyed = false
  cnt : st.count = r.curEls.length
  curne : r.curEls ≠ []
  filesEq : st.files = List.range (r.closedEls.length + 1)
  keyEq : st.key = r.closedEls.length
  fcEq : st.fileCount = r.closedEls.length + 1
  sepEq : st.sep = [',']
  outsEq : st.outstream = some (r.closedEls.length, ('[' :: joinC r.curEls).length)
  dlen : st.disk.length = r.closedEls.length + 1
  closedEq : ∀ j, j < r.closedEls.length →
    diskGet st.disk j = (r.closedEls.get? j).map renderFile
  curEq : diskGet st.disk r.closedEls.length = some ('[' :: joinC r.curEls)

/-! Shared concrete fixtures for the witnesses. -/

/-- A default-policy lazy engine configuration without validator. -/
def cfg2 : Config := ⟨2, false, false, true, false⟩

def vAll : Item → Bool := fun _ => true

def items3 : List Item := [Item.str ['1'], Item.str ['2'], Item.str ['3']]

/-- An append-policy lazy engine configuration without validator. -/
def cfgA : Config := ⟨10, false, true, true, false⟩

/-- A default-policy lazy engine configuration with a validator. -/
def cfgV : Config := ⟨5, false, false, true, true⟩

/-- A validator accepting exactly the string items. -/
def vStr : Item → Bool := fun x =>
  match x with
  | .str _ => true
  | _ => false

/-- A validator rejecting every item. -/
def vNone : Item → Bool := fun _ => false

/-! Ghost accounting for the total-count invariant: alongside the
engine state we track the number of items this engine wrote into each
file of `files`, in order. -/

/-- Add one to the last entry of a list (the current file's count). -/
def bumpLast (l : List Nat) : List Nat :=
  l.dropLast ++ (match l.getLast? with
    | none => []
    | some x => [x + 1])

/-- The ghost-count update mirroring one `write` call: opening a file
appends a 0 count, and an item landing in the open file bumps the last
count.  The branch structure mirrors `arrWrite`. -/
def ghostUpd (cfg : Config) (v : Item → Bool) (st : EngineState)
    (wc : List Nat) (it : Item) : List Nat :=
  if st.destroyed then wc
  else
    let wc1 := if cfg.lazy = true ∧ st.outstream = none then wc ++ [0]
               else wc
    let st1 := if cfg.lazy = true ∧ st.outstream = none then
                 openOutstream cfg st
               else st
    if cfg.hasValidator = true ∧ v it = false then wc1
    else if cfg.maxItems ≤ st1.count then
      match (resetOutstream cfg st1 false).outstream with
      | none => wc1 ++ [0]
      | some _ => bumpLast (wc1 ++ [0])
    else
      match st1.outstream with
      | none => wc1
      | some _ => bumpLast wc1

/-- Engine states reachable through the public API (construction over
any initial directory, writes, finalization), with their ghost
per-file written counts. -/
inductive Reach (cfg : Config) (v : Item → Bool) :
    EngineState → List Nat → Prop where
  | init (d : Disk) :
      Reach cfg v (initEngine cfg d) (if cfg.lazy then [] else [0])
  | step {st : EngineState} {wc : List Nat} (it : Item) :
      Reach cfg v st wc →
      Reach cfg v (write cfg v st it).1 (ghostUpd cfg v st wc it)
  | final {st : EngineState} {wc : List Nat} :
      Reach cfg v st wc → Reach cfg v (finalize cfg st) wc

/-- The rotation invariant tying a reachable state to its ghost
counts. -/
structure GhostInv (cfg : Config) (st : EngineState) (wc : List Nat) :
    Prop where
  len : wc.length = st.files.length
  full : ∀ y ∈ wc.dropLast, y = cfg.maxItems
  cntle : st.count ≤ cfg.maxItems
  lastc : wc ≠ [] → wc.getLast? = some st.count
  nil0 : wc = [] → st.count = 0
  unopened : st.destroyed = false → st.outstream = none → st.files = []
  opened : st.outstream ≠ none → st.files ≠ []

/-! Directory lemmas. -/

theorem getD_of_le (l : List (Option Content)) {j : Nat} (h : l.length ≤ j) :
    l.getD j none = none := by
  induction l generalizing j with
  | nil => simp [List.getD]
  | cons a l ih =>
    cases j with
    | zero => simp at h
    | succ j => simpa [List.getD] using ih (Nat.le_of_succ_le_succ h)

theorem diskGet_of_le (d : Disk) {j : Nat} (h : d.length ≤ j) :
    diskGet d j = none := getD_of_le d h

theorem getD_set_self (l : List (Option Content)) {j : Nat}
    (h : j < l.length) (a : Option Content) : (l.set j a).getD j none = a := by
  induction l generalizing j with
  | nil => simp at h
  | cons b l ih =>
    cases j with
    | zero => simp [List.getD]
    | succ j => simpa [List.getD] using ih (Nat.lt_of_succ_lt_succ h)

theorem getD_set_ne (l : List (Option Content)) {i j : Nat} (h : i ≠ j)
    (a : Option Content) : (l.set j a).getD i none = l.getD i none := by
  induction l generalizing i j with
  | nil => simp
  | cons b l ih =>
    cases j with
    | zero =>
      cases i with
      | zero => exact absurd rfl h
      | succ i => simp [List.getD]
    | succ j =>
      cases i with
      | zero => simp [List.getD]
      | succ i =>
        have hne : i ≠ j := fun hh => h (by omega)
        simpa [List.getD] using ih hne

theorem getD_append_left (l m : List (Option Content)) {i : Nat}
    (h : i < l.length) : (l ++ m).getD i none = l.getD i none := by
  induction l generalizing i with
  | nil => simp at h
  | cons b l ih =>
    cases i with
    | zero => simp [List.getD]
    | succ i => simpa [List.getD] using ih (Nat.lt_of_succ_lt_succ h)

theorem getD_replicate_none (n : Nat) (i : Nat) :
    (List.replicate n (none : Option Content)).getD i none = none := by
  induction n generalizing i with
  | zero => simp [List.getD]
  | succ n ih =>
    cases i with
    | zero => simp [List.replicate, List.getD]
    | succ i => simpa [List.replicate, List.getD] using ih i

theorem getD_append_replicate_none (d : Disk) (n : Nat) {i : Nat}
    (h : d.length ≤ i) :
    (d ++ List.replicate n (none : Option Content)).getD i none = none := by
  induction d generalizing i with
  | nil => simpa using getD_replicate_none n i
  | cons b l ih =>
    cases i with
    | zero => simp at h
    | succ i => simpa [List.getD] using ih (Nat.le_of_succ_le_succ h)

theorem diskSet_length (d : Disk) (j : Nat) (c : Content) :
    (diskSet d j c).length = max (j + 1) d.length := by
  unfold diskSet
  simp [List.length_set]
  omega

theorem diskGet_set_self (d : Disk) (j : Nat) (c : Content) :
    diskGet (diskSet d j c) j = some c := by
  unfold diskGet diskSet
  apply getD_set_self
  simp
  omega

theorem diskGet_set_of_ne (d : Disk) {i j : Nat} (h : i ≠ j) (c : Content) :
    diskGet (diskSet d j c) i = diskGet d i := by
  unfold diskGet diskSet
  rw [getD_set_ne _ h]
  by_cases hi : i < d.length
  · exact getD_append_left _ _ hi
  · rw [getD_of_le d (by omega), getD_append_replicate_none d _ (by omega)]

/-! Collision-loop lemmas (default open policy). -/

theorem collideLoop_spec (fuel : Nat) :
    ∀ st : EngineState, st.fileCount = st.key + 1 →
    (∃ j, st.key ≤ j ∧ j < st.key + fuel ∧ diskGet st.disk j = none) →
    diskGet st.disk (collideLoop st fuel).key = none ∧
    st.key ≤ (collideLoop st fuel).key ∧
    (∀ j, st.key ≤ j → j < (collideLoop st fuel).key →
      diskGet st.disk j ≠ none) ∧
    (collideLoop st fuel).fileCount = (collideLoop st fuel).key + 1 ∧
    (collideLoop st fuel).disk = st.disk ∧
    (collideLoop st fuel).files = st.files ∧
    (collideLoop st fuel).count = st.count ∧
    (collideLoop st fuel).sep = st.sep ∧
    (collideLoop st fuel).outstream = st.outstream ∧
    (collideLoop st fuel).destroyed = st.destroyed := by
  induction fuel with
  | zero =>
    intro st hkf hfree
    obtain ⟨j, hj1, hj2, _⟩ := hfree
    omega
  | succ fuel ih =>
    intro st hkf hfree
    by_cases hfreenow : diskGet st.disk st.key = none
    · have hstep : collideLoop st (fuel + 1) = st := by
        simp [collideLoop, hfreenow]
      rw [hstep]
      exact ⟨hfreenow, Nat.le_refl _, fun j h1 h2 => by omega, hkf, rfl, rfl,
        rfl, rfl, rfl, rfl⟩
    · have hstep : collideLoop st (fuel + 1) = collideLoop (incrementKey st) fuel := by
        simp [collideLoop, hfreenow]
      obtain ⟨j, hj1, hj2, hj3⟩ := hfree
      have hkey : (incrementKey st).key = st.key + 1 := by
        simp [incrementKey, hkf]
      have hdisk : (incrementKey st).disk = st.disk := rfl
      have hfc : (incrementKey st).fileCount = (incrementKey st).key + 1 := by
        simp [incrementKey]
      have hfree2 : ∃ j, (incrementKey st).key ≤ j ∧
          j < (incrementKey st).key + fuel ∧
          diskGet (incrementKey st).disk j = none := by
        refine ⟨j, ?_, ?_, by rw [hdisk]; exact hj3⟩
        · rw [hkey]
          rcases Nat.eq_or_lt_of_le hj1 with he | hl
          · exact absurd (he ▸ hj3) hfreenow
          · omega
        · rw [hkey]; omega
      obtain ⟨c1, c2, c3, c4, c5, c6, c7, c8, c9, c10⟩ :=
        ih (incrementKey st) hfc hfree2
      rw [hstep]
      rw [hdisk] at c1 c3 c5
      rw [hkey] at c2
      refine ⟨c1, by omega, ?_, c4, c5, c6, c7, c8, c9, c10⟩
      intro i h1 h2
      rcases Nat.eq_or_lt_of_le h1 with he | hl
      · exact he ▸ hfreenow
      · exact c3 i (by rw [hkey]; omega) h2

theorem exists_free (d : Disk) (k : Nat) :
    ∃ j, k ≤ j ∧ j < k + (d.length + 1) ∧ diskGet d j = none := by
  refine ⟨max k d.length, Nat.le_max_left _ _, by omega,
    diskGet_of_le d (Nat.le_max_right _ _)⟩

/-- When the current key is already free, every policy opens a fresh
file right there. -/
theorem openOutstream_free (cfg : Config) (st : EngineState)
    (hfree : diskGet st.disk st.key = none) :
    openOutstream cfg st = openFresh { st with files := st.files ++ [st.key] } := by
  unfold openOutstream
  have hcl : collideLoop st (st.disk.length + 1) = st := by
    simp [collideLoop, hfree]
  by_cases hpol : cfg.append = false ∧ cfg.overwrite = false
  · simp only [if_pos hpol, hcl]
    by_cases hov : cfg.overwrite = true
    · simp [hov]
    · simp only [Bool.not_eq_true] at hov
      simp [hov, hfree]
  · simp only [if_neg hpol]
    by_cases hov : cfg.overwrite = true
    · simp [hov]
    · simp only [Bool.not_eq_true] at hov
      simp [hov, hfree]

/-- Under the default policy the post-collision key is always free, so
`openOutstream` always takes the fresh-file branch there. -/
theorem openOutstream_default_eq (cfg : Config) (st : EngineState)
    (hA : cfg.append = false) (hO : cfg.overwrite = false)
    (hkf : st.fileCount = st.key + 1) :
    openOutstream cfg st =
      openFresh { collideLoop st (st.disk.length + 1) with
        files := (collideLoop st (st.disk.length + 1)).files ++
          [(collideLoop st (st.disk.length + 1)).key] } := by
  obtain ⟨c1, c2, c3, c4, c5, c6, c7, c8, c9, c10⟩ :=
    collideLoop_spec (st.disk.length + 1) st hkf (exists_free st.disk st.key)
  have h2 : diskGet (collideLoop st (st.disk.length + 1)).disk
      (collideLoop st (st.disk.length + 1)).key = none := by
    rw [c5]; exact c1
  unfold openOutstream
  simp [hA, hO, h2]

/-- Claim C9: under the default (neither-append-nor-overwrite) policy
the engine only opens files at keys where no file previously existed:
the chosen key is free, at least the current key, and every key it
skipped was occupied; and with files already present at indices 0 and
1, a freshly constructed engine opens its first file at index 2. -/
theorem C9_collision_avoidance (cfg : Config) (st : EngineState)
    (hA : cfg.append = false) (hO : cfg.overwrite = false)
    (hL : cfg.lazy = true) (hkf : st.fileCount = st.key + 1) :
    (diskGet st.disk (openOutstream cfg st).key = none ∧
     st.key ≤ (openOutstream cfg st).key ∧
     (∀ j, st.key ≤ j → j < (openOutstream cfg st).key →
        diskGet st.disk j ≠ none) ∧
     (openOutstream cfg st).files = st.files ++ [(openOutstream cfg st).key]) ∧
    (∀ x y : Content,
      (openOutstream cfg (initEngine cfg [some x, some y])).key = 2 ∧
      (openOutstream cfg (initEngine cfg [some x, some y])).files = [2]) := by
  constructor
  · obtain ⟨c1, c2, c3, c4, c5, c6, c7, c8, c9, c10⟩ :=
      collideLoop_spec (st.disk.length + 1) st hkf
        (exists_free st.disk st.key)
    rw [openOutstream_default_eq cfg st hA hO hkf]
    simp only [openFresh]
    rw [c6]
    exact ⟨c1, c2, c3, rfl⟩
  · intro x y
    have hinit : initEngine cfg [some x, some y] =
        { sep := [], count := 0, fileCount := 1, key := 0, files := [],
          destroyed := false, outstream := none,
          disk := [some x, some y] } := by
      simp [initEngine, incrementKey, hL]
    rw [hinit]
    rw [openOutstream_default_eq cfg _ hA hO rfl]
    have hcl : collideLoop
        { sep := [], count := 0, fileCount := 1, key := 0, files := [],
          destroyed := false, outstream := none,
          disk := ([some x, some y] : Disk) }
        (([some x, some y] : Disk).length + 1) =
        { sep := [], count := 0, fileCount := 3, key := 2, files := [],
          destroyed := false, outstream := none,
          disk := ([some x, some y] : Disk) } := by
      simp [collideLoop, diskGet, List.getD, incrementKey]
    rw [hcl]
    simp [openFresh]

/-- Claim C9 witness at a concrete engine state. -/
theorem C9_collision_avoidance_witness :
    (diskGet ([] : Disk)
        (openOutstream ⟨2, false, false, true, false⟩
          (initEngine ⟨2, false, false, true, false⟩ [])).key = none ∧
     (initEngine ⟨2, false, false, true, false⟩ []).key ≤
        (openOutstream ⟨2, false, false, true, false⟩
          (initEngine ⟨2, false, false, true, false⟩ [])).key ∧
     (∀ j, (initEngine ⟨2, false, false, true, false⟩ []).key ≤ j →
        j < (openOutstream ⟨2, false, false, true, false⟩
          (initEngine ⟨2, false, false, true, false⟩ [])).key →
        diskGet ([] : Disk) j ≠ none) ∧
     (openOutstream ⟨2, false, false, true, false⟩
        (initEngine ⟨2, false, false, true, false⟩ [])).files =
       (initEngine ⟨2, false, false, true, false⟩ []).files ++
       [(openOutstream ⟨2, false, false, true, false⟩
          (initEngine ⟨2, false, false, true, false⟩ [])).key]) ∧
    (∀ x y : Content,
      (openOutstream ⟨2, false, false, true, false⟩
        (initEngine ⟨2, false, false, true, false⟩ [some x, some y])).key = 2 ∧
      (openOutstream ⟨2, false, false, true, false⟩
        (initEngine ⟨2, false, false, true, false⟩ [some x, some y])).files = [2]) :=
  C9_collision_avoidance ⟨2, false, false, true, false⟩
    (initEngine ⟨2, false, false, true, false⟩ []) rfl rfl rfl (by decide)

/-- Claim C4: resuming an existing file under the append policy: if the
file size is below 3 no separator is assumed; otherwise the byte at
offset size - 3 decides, and a separator is required exactly when that
byte is neither `[` nor `,`. -/
theorem C4_append_probe (cfg : Config) (st : EngineState) (c : Content)
    (hA : cfg.append = true) (hO : cfg.overwrite = false)
    (hc : diskGet st.disk st.key = some c) :
    (c.length < 3 → (openOutstream cfg st).sep = []) ∧
    (3 ≤ c.length → ∀ ch, c.get? (c.length - 3) = some ch →
      ((openOutstream cfg st).sep = [','] ↔ (ch ≠ '[' ∧ ch ≠ ','))) := by
  have hpol : ¬(cfg.append = false ∧ cfg.overwrite = false) := by
    simp [hA]
  have hov : cfg.overwrite ≠ true := by simp [hO]
  unfold openOutstream
  rw [if_neg hpol, if_neg hov]
  simp only [hc]
  by_cases hlen2 : c.length < 2
  · rw [if_pos hlen2]
    refine ⟨fun _ => rfl, fun h3 => by omega⟩
  · rw [if_neg hlen2]
    constructor
    · intro h3
      have hp : probeSep c = false := by
        unfold probeSep
        rw [if_neg (by omega)]
      simp [hp]
    · intro h3 ch hch
      have hp : probeSep c = (if ch = '[' ∨ ch = ',' then false else true) := by
        unfold probeSep
        rw [if_pos h3, hch]
      rw [hp]
      by_cases hbr : ch = '[' ∨ ch = ','
      · rw [if_pos hbr]
        simp only [if_false]
        constructor
        · intro habs
          exact absurd habs (by simp)
        · intro ⟨h1, h2⟩
          rcases hbr with hb | hb
          · exact absurd hb h1
          · exact absurd hb h2
      · rw [if_neg hbr]
        push_neg at hbr
        simp [hbr.1, hbr.2]

/-- Claim C4 witness: a concrete 4-byte file `[1]\n`, probe byte `1`. -/
theorem C4_append_probe_witness :
    (("[1]\n".data.length < 3 →
      (openOutstream ⟨1, false, true, true, false⟩
        (initEngine ⟨1, false, true, true, false⟩ [some "[1]\n".data])).sep = []) ∧
     (3 ≤ "[1]\n".data.length →
      ∀ ch, "[1]\n".data.get? ("[1]\n".data.length - 3) = some ch →
        ((openOutstream ⟨1, false, true, true, false⟩
          (initEngine ⟨1, false, true, true, false⟩ [some "[1]\n".data])).sep = [','] ↔
         (ch ≠ '[' ∧ ch ≠ ',')))) :=
  C4_append_probe ⟨1, false, true, true, false⟩
    (initEngine ⟨1, false, true, true, false⟩ [some "[1]\n".data])
    "[1]\n".data rfl rfl (by decide)

/-! Lemmas about joining and re-splitting JSON array elements. -/

theorem joinC_nil : joinC [] = [] := rfl

theorem joinC_cons (e : Content) (es : List Content) :
    joinC (e :: es) = e ++ (es.map (fun x => ',' :: x)).flatten := rfl

theorem joinC_append_singleton (es : List Content) (w : Content)
    (h : es ≠ []) : joinC (es ++ [w]) = joinC es ++ ',' :: w := by
  cases es with
  | nil => exact absurd rfl h
  | cons e es => simp [joinC]

theorem joinC_ne_nil (e : Content) (es : List Content) (he : e ≠ []) :
    joinC (e :: es) ≠ [] := by
  simp [joinC, he]

theorem joinC_length_append (es : List Content) (w : Content) (h : es ≠ []) :
    (joinC (es ++ [w])).length = (joinC es).length + 1 + w.length := by
  rw [joinC_append_singleton es w h]
  simp
  omega

theorem scanA_append (s : ScanSt) (a b : Content) :
    scanA s (a ++ b) = (scanA s a).bind (fun s2 => scanA s2 b) := by
  induction a generalizing s with
  | nil => simp [scanA]
  | cons c cs ih =>
    by_cases hsp : s.depth = 0 ∧ s.inStr = false ∧ c = ','
    · simp [scanA, hsp]
    · simp only [List.cons_append, scanA, if_neg hsp]
      exact ih (consume s c)

theorem splitTopAux_of_scanA (e : Content) :
    ∀ (s s2 : ScanSt) (acc : Content) (cs : Content),
    scanA s e = some s2 →
    splitTopAux s acc (e ++ cs) = splitTopAux s2 (e.reverse ++ acc) cs := by
  induction e with
  | nil =>
    intro s s2 acc cs h
    simp [scanA] at h
    simp [h]
  | cons c e ih =>
    intro s s2 acc cs h
    by_cases hsp : s.depth = 0 ∧ s.inStr = false ∧ c = ','
    · simp [scanA, hsp] at h
    · simp only [scanA, if_neg hsp] at h
      simp only [List.cons_append, splitTopAux, if_neg hsp]
      show splitTopAux (consume s c) (c :: acc) (e ++ cs) =
        splitTopAux s2 ((c :: e).reverse ++ acc) cs
      rw [ih (consume s c) s2 (c :: acc) cs h]
      simp

theorem splitTop_joinC (es : List Content)
    (hat : ∀ e ∈ es, IsAtom e) (hne : es ≠ []) :
    splitTop (joinC es) = es := by
  induction es with
  | nil => exact absurd rfl hne
  | cons e es ih =>
    have he : IsAtom e := hat e (List.mem_cons_self e es)
    cases es with
    | nil =>
      show splitTopAux initScan [] (joinC [e]) = [e]
      have : joinC [e] = e ++ [] := by simp [joinC]
      rw [this, splitTopAux_of_scanA e initScan initScan [] [] he.2]
      simp [splitTopAux]
    | cons f fs =>
      have hjoin : joinC (e :: f :: fs) = e ++ ',' :: joinC (f :: fs) := by
        simp [joinC]
      show splitTopAux initScan [] (joinC (e :: f :: fs)) = e :: f :: fs
      rw [hjoin, splitTopAux_of_scanA e initScan initScan [] (',' :: joinC (f :: fs)) he.2]
      have hsplit : splitTopAux initScan (e.reverse ++ []) (',' :: joinC (f :: fs)) =
          e :: splitTopAux initScan [] (joinC (f :: fs)) := by
        simp [splitTopAux, initScan]
      have hih := ih (fun x hx => hat x (List.mem_cons_of_mem e hx)) (by simp)
      unfold splitTop at hih
      rw [hsplit, hih]

theorem renderFile_length (els : List Content) :
    (renderFile els).length = (joinC els).length + 3 := by
  simp [renderFile]

/-- Decoding inverts rendering on lists of well-formed JSON values. -/
theorem decodeJsonArray_renderFile (els : List Content)
    (hat : ∀ e ∈ els, IsAtom e) :
    decodeJsonArray (renderFile els) = some els := by
  have hlen : (renderFile els).length = (joinC els).length + 3 :=
    renderFile_length els
  have htake : (renderFile els).take 1 = ['['] := by simp [renderFile]
  have hdrop : (renderFile els).drop ((renderFile els).length - 2) = [']', '\n'] := by
    rw [hlen]
    show ('[' :: (joinC els ++ [']', '\n'])).drop ((joinC els).length + 1) = [']', '\n']
    rw [List.drop_succ_cons]
    exact List.drop_left _ _
  have hmid : ((renderFile els).drop 1).take ((renderFile els).length - 3) = joinC els := by
    rw [hlen]
    show (('[' :: (joinC els ++ [']', '\n'])).drop 1).take ((joinC els).length + 3 - 3) = joinC els
    simp only [List.drop_succ_cons, List.drop_zero, Nat.add_sub_cancel]
    exact List.take_left _ _
  unfold decodeJsonArray
  rw [if_pos ⟨by omega, htake, hdrop⟩]
  simp only [hmid]
  cases els with
  | nil => simp [joinC]
  | cons e es =>
    have hne : joinC (e :: es) ≠ [] :=
      joinC_ne_nil e es (hat e (List.mem_cons_self e es)).1
    rw [if_neg hne]
    rw [splitTop_joinC (e :: es) hat (by simp)]

/-- A well-formed JSON value never ends in `[` or `,`; this is what
makes the trailing-byte probe sound on files this engine produced. -/
theorem atom_last_ne (e : Content) (he : IsAtom e) :
    ∀ ch, e.getLast? = some ch → ch ≠ '[' ∧ ch ≠ ',' := by
  intro ch hch
  obtain ⟨l, rfl⟩ : ∃ l, e = l ++ [ch] := by
    have hne : e ≠ [] := he.1
    refine ⟨e.dropLast, ?_⟩
    have hdl := List.dropLast_append_getLast hne
    rw [List.getLast?_eq_getLast e hne] at hch
    simp only [Option.some_inj] at hch
    rw [hch] at hdl
    exact hdl.symm
  have hscan := he.2
  rw [scanA_append] at hscan
  rcases hmid : scanA initScan l with _ | s1
  · rw [hmid] at hscan
    exact Option.noConfusion hscan
  · rw [hmid] at hscan
    simp only [Option.some_bind] at hscan
    by_cases hsp : s1.depth = 0 ∧ s1.inStr = false ∧ ch = ','
    · simp [scanA, hsp] at hscan
    · simp only [scanA, if_neg hsp] at hscan
      have hcons : consume s1 ch = initScan := by
        simpa [scanA] using hscan
      constructor
      · intro hbr
        subst hbr
        unfold consume at hcons
        by_cases h1 : s1.inStr
        · rw [if_pos h1] at hcons
          by_cases h2 : s1.esc
          · rw [if_pos h2] at hcons
            have : s1.inStr = false := by
              have := congrArg ScanSt.inStr hcons
              simpa [initScan] using this
            rw [this] at h1; exact Bool.noConfusion h1
          · rw [if_neg h2] at hcons
            have hne1 : ¬('[' : Char) = '\\' := by decide
            have hne2 : ¬('[' : Char) = '\"' := by decide
            rw [if_neg hne1, if_neg hne2] at hcons
            rw [hcons] at h1
            simp [initScan] at h1
        · rw [if_neg h1] at hcons
          have hne2 : ¬('[' : Char) = '\"' := by decide
          have hbr2 : ('[' : Char) = '[' ∨ ('[' : Char) = '\x7b' := Or.inl rfl
          rw [if_neg hne2, if_pos hbr2] at hcons
          have := congrArg ScanSt.depth hcons
          simp [initScan] at this
      · intro hbr
        subst hbr
        unfold consume at hcons
        by_cases h1 : s1.inStr
        · rw [if_pos h1] at hcons
          by_cases h2 : s1.esc
          · rw [if_pos h2] at hcons
            have : s1.inStr = false := by
              have := congrArg ScanSt.inStr hcons
              simpa [initScan] using this
            rw [this] at h1; exact Bool.noConfusion h1
          · rw [if_neg h2] at hcons
            have hne1 : ¬(',' : Char) = '\\' := by decide
            have hne2 : ¬(',' : Char) = '\"' := by decide
            rw [if_neg hne1, if_neg hne2] at hcons
            rw [hcons] at h1
            simp [initScan] at h1
        · rw [if_neg h1] at hcons
          have hd : s1.depth ≠ 0 := by
            intro hd0
            exact hsp ⟨hd0, by simpa using h1, rfl⟩
          have hne2 : ¬(',' : Char) = '\"' := by decide
          have hbr2 : ¬((',' : Char) = '[' ∨ (',' : Char) = '\x7b') := by decide
          have hbr3 : ¬((',' : Char) = ']' ∨ (',' : Char) = '\x7d') := by decide
          rw [if_neg hne2, if_neg hbr2, if_neg hbr3] at hcons
          rw [hcons] at hd
          simp [initScan] at hd

theorem refFold_ok (M : Nat) (ws : List Content) :
    ∀ r : RefSt,
    (∀ c ∈ r.closedEls, c.length = M) → 1 ≤ r.curEls.length →
    r.curEls.length ≤ M →
    (∀ c ∈ (ws.foldl (refStep M) r).closedEls, c.length = M) ∧
    1 ≤ (ws.foldl (refStep M) r).curEls.length ∧
    (ws.foldl (refStep M) r).curEls.length ≤ M ∧
    (ws.foldl (refStep M) r).closedEls.flatten ++
      (ws.foldl (refStep M) r).curEls =
      r.closedEls.flatten ++ r.curEls ++ ws ∧
    (ws.foldl (refStep M) r).closedEls.length * M +
      (ws.foldl (refStep M) r).curEls.length =
      r.closedEls.length * M + r.curEls.length + ws.length := by
  induction ws with
  | nil =>
    intro r h1 h2 h3
    exact ⟨h1, h2, h3, by simp, by simp⟩
  | cons w ws ih =>
    intro r h1 h2 h3
    rw [List.foldl_cons]
    by_cases hrot : M ≤ r.curEls.length
    · have hcur : r.curEls.length = M := Nat.le_antisymm h3 hrot
      have hstep : refStep M r w = ⟨r.closedEls ++ [r.curEls], [w]⟩ := by
        simp [refStep, hrot]
      rw [hstep]
      have h1b : ∀ c ∈ r.closedEls ++ [r.curEls], c.length = M := by
        intro c hc
        rcases List.mem_append.mp hc with hc | hc
        · exact h1 c hc
        · simp at hc; rw [hc, hcur]
      obtain ⟨g1, g2, g3, g4, g5⟩ := ih ⟨r.closedEls ++ [r.curEls], [w]⟩ h1b
        (by simp) (by simp; omega)
      refine ⟨g1, g2, g3, ?_, ?_⟩
      · rw [g4]; simp
      · rw [g5]; simp [hcur]
        rw [Nat.succ_mul]
        omega
    · have hstep : refStep M r w = ⟨r.closedEls, r.curEls ++ [w]⟩ := by
        simp [refStep, hrot]
      rw [hstep]
      obtain ⟨g1, g2, g3, g4, g5⟩ := ih ⟨r.closedEls, r.curEls ++ [w]⟩ h1
        (by simp) (by simp; omega)
      refine ⟨g1, g2, g3, ?_, ?_⟩
      · rw [g4]; simp
      · rw [g5]; simp; omega

theorem refRun_cons (M : Nat) (hM : 1 ≤ M) (w : Content) (ws : List Content) :
    refRun M (w :: ws) = ws.foldl (refStep M) ⟨[], [w]⟩ := by
  unfold refRun
  rw [List.foldl_cons]
  have : refStep M ⟨[], []⟩ w = ⟨[], [w]⟩ := by
    simp [refStep]; omega
  rw [this]

theorem refRun_ok (M : Nat) (hM : 1 ≤ M) (w : Content) (ws : List Content) :
    (∀ c ∈ (refRun M (w :: ws)).closedEls, c.length = M) ∧
    1 ≤ (refRun M (w :: ws)).curEls.length ∧
    (refRun M (w :: ws)).curEls.length ≤ M ∧
    (refRun M (w :: ws)).closedEls.flatten ++ (refRun M (w :: ws)).curEls =
      w :: ws ∧
    (refRun M (w :: ws)).closedEls.length * M +
      (refRun M (w :: ws)).curEls.length = (w :: ws).length := by
  rw [refRun_cons M hM w ws]
  obtain ⟨g1, g2, g3, g4, g5⟩ := refFold_ok M ws ⟨[], [w]⟩ (by simp) (by simp)
    (by simp; omega)
  refine ⟨g1, g2, g3, by simpa using g4, ?_⟩
  simp only [List.length_cons, List.length_nil] at g5 ⊢
  omega

/-- Ceiling-division bookkeeping for a run of `n = cl * M + cu` items
with `1 ≤ cu ≤ M`. -/
theorem ceil_arith (M cl cu n : Nat) (hM : 1 ≤ M) (h1 : 1 ≤ cu)
    (h2 : cu ≤ M) (heq : cl * M + cu = n) :
    cl + 1 = (n + M - 1) / M ∧ cu = n - M * cl := by
  constructor
  · have hsplit : n + M - 1 = (cu - 1) + (cl + 1) * M := by
      have hmul : (cl + 1) * M = cl * M + M := Nat.succ_mul cl M
      rw [hmul]
      omega
    rw [hsplit, Nat.add_mul_div_right _ _ (by omega : 0 < M),
      Nat.div_eq_of_lt (by omega : cu - 1 < M)]
    omega
  · have hmul : M * cl = cl * M := Nat.mul_comm M cl
    omega

/-! Engine-side reduction lemmas for a single write on an open,
non-destroyed stream. -/

theorem pushItem_fst (st : EngineState) (w : Content)
    (ev ev2 : List (Option WError)) :
    (pushItem st w ev).1 = (pushItem st w ev2).1 := by
  unfold pushItem
  rcases st.outstream with _ | ⟨i, pos⟩ <;> rfl

theorem pushItem_some_fst (st : EngineState) (w : Content)
    (ev : List (Option WError)) (i pos : Nat)
    (ho : st.outstream = some (i, pos)) :
    (pushItem st w ev).1 =
      { streamWrite st (st.sep ++ w) with
        sep := if st.sep = [] then [','] else st.sep,
        count := (streamWrite st (st.sep ++ w)).count + 1 } := by
  unfold pushItem
  rw [ho]

theorem write_open_fst (cfg : Config) (v : Item → Bool) (st : EngineState)
    (it : Item) (hdes : st.destroyed = false) (ho : st.outstream ≠ none)
    (hval : ¬(cfg.hasValidator = true ∧ v it = false)) :
    (write cfg v st it).1 =
      if cfg.maxItems ≤ st.count then
        (pushItem (resetOutstream cfg st false) (writtenOf it) []).1
      else (pushItem st (writtenOf it) []).1 := by
  unfold write
  rw [if_neg (by rw [hdes]; exact Bool.false_ne_true)]
  unfold arrWrite
  rw [if_neg hval]
  have hlz : ¬(cfg.lazy = true ∧ st.outstream = none) := fun hand => ho hand.2
  rw [if_neg hlz]
  by_cases hrot : cfg.maxItems ≤ st.count
  · rw [if_pos hrot, if_pos hrot]
    exact pushItem_fst _ _ _ _
  · rw [if_neg hrot, if_neg hrot]
    exact pushItem_fst _ _ _ _

theorem streamWrite_append (st : EngineState) (i pos : Nat)
    (old s : Content) (ho : st.outstream = some (i, pos))
    (hd : diskGet st.disk i = some old) (hp : old.length = pos) :
    streamWrite st s =
      { st with disk := diskSet st.disk i (old ++ s),
                outstream := some (i, pos + s.length) } := by
  unfold streamWrite
  rw [ho]
  simp only [hd, Option.getD_some]
  have htake : old.take pos = old := by rw [← hp]; exact List.take_length old
  have hdrop : old.drop (pos + s.length) = [] :=
    List.drop_eq_nil_of_le (by omega)
  rw [htake, hdrop, List.append_nil]

theorem pushItem_content (st : EngineState) (w : Content)
    (ev : List (Option WError)) (i pos : Nat) (old : Content)
    (ho : st.outstream = some (i, pos)) (hd : diskGet st.disk i = some old)
    (hp : old.length = pos) :
    (pushItem st w ev).1 =
      { st with disk := diskSet st.disk i (old ++ (st.sep ++ w)),
                outstream := some (i, pos + (st.sep ++ w).length),
                sep := if st.sep = [] then [','] else st.sep,
                count := st.count + 1 } := by
  rw [pushItem_some_fst st w ev i pos ho,
      streamWrite_append st i pos old (st.sep ++ w) ho hd hp]

theorem openFresh_init (cfg : Config) :
    openOutstream cfg
      { sep := [], count := 0, fileCount := 1, key := 0, files := [],
        destroyed := false, outstream := none, disk := [] } =
      { sep := [], count := 0, fileCount := 1, key := 0, files := [0],
        destroyed := false, outstream := some (0, 1),
        disk := [some ['[']] } := by
  rw [openOutstream_free cfg _ (by rfl)]
  simp [openFresh, diskSet]

theorem write_fresh_fst (cfg : Config) (v : Item → Bool) (it : Item)
    (hM : 1 ≤ cfg.maxItems)
    (hval : ¬(cfg.hasValidator = true ∧ v it = false)) :
    (write cfg v (initEngine cfg []) it).1 =
      { sep := [','], count := 1, fileCount := 1, key := 0, files := [0],
        destroyed := false,
        outstream := some (0, 1 + (writtenOf it).length),
        disk := [some ('[' :: writtenOf it)] } := by
  have hpush : (pushItem
      { sep := [], count := 0, fileCount := 1, key := 0, files := [0],
        destroyed := false, outstream := some (0, 1),
        disk := [some ['[']] } (writtenOf it) []).1 =
      { sep := [','], count := 1, fileCount := 1, key := 0, files := [0],
        destroyed := false,
        outstream := some (0, 1 + (writtenOf it).length),
        disk := [some ('[' :: writtenOf it)] } := by
    rw [pushItem_content
      { sep := [], count := 0, fileCount := 1, key := 0, files := [0],
        destroyed := false, outstream := some (0, 1),
        disk := [some ['[']] } (writtenOf it) [] 0 1 ['['] rfl rfl rfl]
    simp [diskSet]
  have hred : (write cfg v (initEngine cfg []) it).1 =
      (pushItem
        { sep := [], count := 0, fileCount := 1, key := 0, files := [0],
          destroyed := false, outstream := some (0, 1),
          disk := [some ['[']] } (writtenOf it) []).1 := by
    by_cases hlz : cfg.lazy = true
    · have hinit : initEngine cfg [] =
          { sep := [], count := 0, fileCount := 1, key := 0, files := [],
            destroyed := false, outstream := none, disk := [] } := by
        simp [initEngine, incrementKey, hlz]
      rw [hinit]
      unfold write
      rw [if_neg (by simp)]
      unfold arrWrite
      rw [if_neg hval]
      have hlzif : (if cfg.lazy = true ∧
          ({ sep := [], count := 0, fileCount := 1, key := 0, files := [],
             destroyed := false, outstream := none,
             disk := [] } : EngineState).outstream = none
          then openOutstream cfg
            { sep := [], count := 0, fileCount := 1, key := 0, files := [],
              destroyed := false, outstream := none, disk := [] }
          else
            { sep := [], count := 0, fileCount := 1, key := 0, files := [],
              destroyed := false, outstream := none, disk := [] }) =
          openOutstream cfg
            { sep := [], count := 0, fileCount := 1, key := 0, files := [],
              destroyed := false, outstream := none, disk := [] } :=
        if_pos ⟨hlz, rfl⟩
      rw [hlzif, openFresh_init cfg,
        if_neg (by simp; omega :
          ¬ cfg.maxItems ≤
            ({ sep := [], count := 0, fileCount := 1, key := 0, files := [0],
               destroyed := false, outstream := some (0, 1),
               disk := [some ['[']] } : EngineState).count)]
      exact pushItem_fst _ _ _ _
    · have hinit : initEngine cfg [] =
          { sep := [], count := 0, fileCount := 1, key := 0, files := [0],
            destroyed := false, outstream := some (0, 1),
            disk := [some ['[']] } := by
        have hbase : initEngine cfg [] = openOutstream cfg
            { sep := [], count := 0, fileCount := 1, key := 0, files := [],
              destroyed := false, outstream := none, disk := [] } := by
          simp [initEngine, incrementKey, hlz]
        rw [hbase, openFresh_init cfg]
      rw [hinit]
      rw [write_open_fst cfg v
        { sep := [], count := 0, fileCount := 1, key := 0, files := [0],
          destroyed := false, outstream := some (0, 1),
          disk := [some ['[']] } it rfl (by simp) hval]
      rw [if_neg (by simp; omega :
        ¬ cfg.maxItems ≤
          ({ sep := [], count := 0, fileCount := 1, key := 0, files := [0],
             destroyed := false, outstream := some (0, 1),
             disk := [some ['[']] } : EngineState).count)]
  rw [hred, hpush]

theorem SimInv_first (cfg : Config) (v : Item → Bool) (it : Item)
    (hM : 1 ≤ cfg.maxItems)
    (hval : ¬(cfg.hasValidator = true ∧ v it = false)) :
    SimInv cfg.maxItems ⟨[], [writtenOf it]⟩
      (write cfg v (initEngine cfg []) it).1 := by
  rw [write_fresh_fst cfg v it hM hval]
  refine ⟨rfl, by simp, by simp, by simp [List.range_succ], rfl, rfl, rfl,
    ?_, rfl, ?_, ?_⟩
  · simp [joinC]
    omega
  · intro j hj
    simp at hj
  · simp [joinC, diskGet, List.getD]

theorem resetOutstream_rotate (cfg : Config) (st : EngineState) (i pos : Nat)
    (old : Content) (ho : st.outstream = some (i, pos))
    (hd : diskGet st.disk i = some old) (hp : old.length = pos) :
    resetOutstream cfg st false =
      openOutstream cfg (incrementKey
        { st with disk := diskSet st.disk i (old ++ [']', '\n']),
                  outstream := some (i, pos + 2), count := 0 }) := by
  unfold resetOutstream
  simp only [ho]
  rw [streamWrite_append st i pos old [']', '\n'] ho hd hp]
  simp [incrementKey]

theorem SimInv_step (cfg : Config) (v : Item → Bool) (r : RefSt)
    (st : EngineState) (it : Item)
    (hA : cfg.append = false) (hO : cfg.overwrite = false)
    (hM : 1 ≤ cfg.maxItems)
    (hval : ¬(cfg.hasValidator = true ∧ v it = false))
    (hinv : SimInv cfg.maxItems r st) :
    SimInv cfg.maxItems (refStep cfg.maxItems r (writtenOf it))
      (write cfg v st it).1 := by
  obtain ⟨hdes, hcnt, hcur, hfiles, hkey, hfc, hsep, houts, hdlen, hclosed,
    hcurEq⟩ := hinv
  have hw := write_open_fst cfg v st it hdes
    (by rw [houts]; exact fun h => Option.noConfusion h) hval
  by_cases hrot : cfg.maxItems ≤ st.count
  · -- rotation step
    rw [if_pos hrot] at hw
    have hr2 : refStep cfg.maxItems r (writtenOf it) =
        ⟨r.closedEls ++ [r.curEls], [writtenOf it]⟩ := by
      unfold refStep
      rw [if_pos (show cfg.maxItems ≤ r.curEls.length from hcnt ▸ hrot)]
    have hreset := resetOutstream_rotate cfg st r.closedEls.length
      ('[' :: joinC r.curEls).length ('[' :: joinC r.curEls) houts hcurEq rfl
    have hik : incrementKey
        { st with disk := diskSet st.disk r.closedEls.length
                    (('[' :: joinC r.curEls) ++ [']', '\n']),
                  outstream := some (r.closedEls.length,
                    ('[' :: joinC r.curEls).length + 2),
                  count := 0 } =
        { st with disk := diskSet st.disk r.closedEls.length
                    (('[' :: joinC r.curEls) ++ [']', '\n']),
                  outstream := some (r.closedEls.length,
                    ('[' :: joinC r.curEls).length + 2),
                  count := 0, key := r.closedEls.length + 1,
                  fileCount := r.closedEls.length + 2 } := by
      simp [incrementKey, hfc]
    have hD1len : (diskSet st.disk r.closedEls.length
        (('[' :: joinC r.curEls) ++ [']', '\n'])).length =
        r.closedEls.length + 1 := by
      rw [diskSet_length, hdlen]
      omega
    have hfree : diskGet (diskSet st.disk r.closedEls.length
        (('[' :: joinC r.curEls) ++ [']', '\n'])) (r.closedEls.length + 1) =
        none :=
      diskGet_of_le _ (by rw [hD1len])
    rw [hreset, hik, openOutstream_free cfg _ hfree] at hw
    simp only [openFresh] at hw
    rw [pushItem_content _ (writtenOf it) [] (r.closedEls.length + 1) 1 ['[']
      rfl (diskGet_set_self _ _ _) rfl] at hw
    rw [hw, hr2]
    refine ⟨hdes, by simp, by simp, ?_, by simp, by simp, by simp, ?_, ?_, ?_, ?_⟩
    · show st.files ++ [r.closedEls.length + 1] = _
      rw [hfiles]
      simp [List.range_succ]
    · show some (r.closedEls.length + 1, 1 + ([] ++ writtenOf it).length) = _
      simp [joinC, Nat.add_comm]
    · show (diskSet (diskSet (diskSet st.disk r.closedEls.length
        (('[' :: joinC r.curEls) ++ [']', '\n'])) (r.closedEls.length + 1)
        ['[']) (r.closedEls.length + 1) (['['] ++ ([] ++ writtenOf it))).length = _
      rw [diskSet_length, diskSet_length, hD1len]
      simp only [List.length_append, List.length_cons, List.length_nil]
      omega
    · intro j hj
      simp at hj
      show diskGet (diskSet (diskSet (diskSet st.disk r.closedEls.length
        (('[' :: joinC r.curEls) ++ [']', '\n'])) (r.closedEls.length + 1)
        ['[']) (r.closedEls.length + 1) (['['] ++ ([] ++ writtenOf it))) j = _
      rw [diskGet_set_of_ne _ (by omega), diskGet_set_of_ne _ (by omega)]
      rcases Nat.lt_or_ge j r.closedEls.length with hlt | hge
      · rw [diskGet_set_of_ne _ (by omega), hclosed j hlt,
          List.get?_append hlt]
      · have hj2 : j = r.closedEls.length := by omega
        subst hj2
        rw [diskGet_set_self, List.get?_concat_length]
        simp [renderFile]
    · show diskGet (diskSet (diskSet (diskSet st.disk r.closedEls.length
        (('[' :: joinC r.curEls) ++ [']', '\n'])) (r.closedEls.length + 1)
        ['[']) (r.closedEls.length + 1) (['['] ++ ([] ++ writtenOf it))) _ = _
      simp only [List.length_append, List.length_cons, List.length_nil]
      rw [diskGet_set_self]
      simp [joinC]
  · -- plain write into the current file
    rw [if_neg hrot] at hw
    have hr2 : refStep cfg.maxItems r (writtenOf it) =
        ⟨r.closedEls, r.curEls ++ [writtenOf it]⟩ := by
      unfold refStep
      rw [if_neg (show ¬cfg.maxItems ≤ r.curEls.length from hcnt ▸ hrot)]
    rw [pushItem_content st (writtenOf it) [] r.closedEls.length
      ('[' :: joinC r.curEls).length ('[' :: joinC r.curEls) houts hcurEq rfl]
      at hw
    rw [hw, hr2]
    have hcontent : ('[' :: joinC r.curEls) ++ (st.sep ++ writtenOf it) =
        '[' :: joinC (r.curEls ++ [writtenOf it]) := by
      rw [hsep, joinC_append_singleton r.curEls (writtenOf it) hcur]
      simp
    refine ⟨hdes, ?_, by simp, by simpa using hfiles, by simpa using hkey,
      by simpa using hfc, ?_, ?_, ?_, ?_, ?_⟩
    · show st.count + 1 = _
      rw [hcnt]
      simp
    · show (if st.sep = [] then [','] else st.sep) = [',']
      rw [hsep]
      simp
    · show some (r.closedEls.length, ('[' :: joinC r.curEls).length +
        (st.sep ++ writtenOf it).length) = _
      have hlen : ('[' :: joinC r.curEls).length +
          (st.sep ++ writtenOf it).length =
          ('[' :: joinC (r.curEls ++ [writtenOf it])).length := by
        rw [← hcontent]
        simp
        omega
      rw [hlen]
    · show (diskSet st.disk r.closedEls.length _).length = _
      rw [diskSet_length, hdlen]
      simp only [List.length_append, List.length_cons, List.length_nil]
      omega
    · intro j hj
      simp only [] at hj
      show diskGet (diskSet st.disk r.closedEls.length _) j = _
      rw [diskGet_set_of_ne _ (by omega)]
      exact hclosed j hj
    · show diskGet (diskSet st.disk r.closedEls.length
        (('[' :: joinC r.curEls) ++ (st.sep ++ writtenOf it))) _ = _
      rw [diskGet_set_self, hcontent]

theorem SimInv_fold (cfg : Config) (v : Item → Bool)
    (hA : cfg.append = false) (hO : cfg.overwrite = false)
    (hM : 1 ≤ cfg.maxItems) (items : List Item) :
    ∀ (r : RefSt) (st : EngineState),
    (∀ x ∈ items, ¬(cfg.hasValidator = true ∧ v x = false)) →
    SimInv cfg.maxItems r st →
    SimInv cfg.maxItems
      ((items.map writtenOf).foldl (refStep cfg.maxItems) r)
      (items.foldl (fun s x => (write cfg v s x).1) st) := by
  induction items with
  | nil => intro r st _ hinv; exact hinv
  | cons it items ih =>
    intro r st hgood hinv
    simp only [List.map_cons, List.foldl_cons]
    exact ih _ _ (fun x hx => hgood x (List.mem_cons_of_mem it hx))
      (SimInv_step cfg v r st it hA hO hM
        (hgood it (List.mem_cons_self it items)) hinv)

theorem sim_main (cfg : Config) (v : Item → Bool) (items : List Item)
    (hA : cfg.append = false) (hO : cfg.overwrite = false)
    (hM : 1 ≤ cfg.maxItems) (hne : items ≠ [])
    (hgood : ∀ x ∈ items, ¬(cfg.hasValidator = true ∧ v x = false)) :
    SimInv cfg.maxItems (refRun cfg.maxItems (items.map writtenOf))
      (writeAll cfg v (initEngine cfg []) items) := by
  cases items with
  | nil => exact absurd rfl hne
  | cons it rest =>
    have h1 := SimInv_first cfg v it hM (hgood it (List.mem_cons_self it rest))
    unfold writeAll
    simp only [List.map_cons, List.foldl_cons]
    rw [refRun_cons cfg.maxItems hM]
    exact SimInv_fold cfg v hA hO hM rest ⟨[], [writtenOf it]⟩ _
      (fun x hx => hgood x (List.mem_cons_of_mem it hx)) h1

theorem finalize_of_SimInv (cfg : Config) (r : RefSt) (st : EngineState)
    (hinv : SimInv cfg.maxItems r st) :
    (finalize cfg st).files = st.files ∧
    (finalize cfg st).count = st.count ∧
    (finalize cfg st).destroyed = true ∧
    (finalize cfg st).outstream = none ∧
    (finalize cfg st).disk.length = r.closedEls.length + 1 ∧
    (∀ j, j < r.closedEls.length →
      diskGet (finalize cfg st).disk j =
        Option.map renderFile (r.closedEls.get? j)) ∧
    diskGet (finalize cfg st).disk r.closedEls.length =
      some (renderFile r.curEls) := by
  obtain ⟨hdes, hcnt, hcur, hfiles, hkey, hfc, hsep, houts, hdlen, hclosed,
    hcurEq⟩ := hinv
  have hres : resetOutstream cfg ({ st with destroyed := true }) true =
      { st with destroyed := true,
                disk := diskSet st.disk r.closedEls.length
                  (('[' :: joinC r.curEls) ++ [']', '\n']),
                outstream := none } := by
    unfold resetOutstream
    simp only [houts]
    rw [streamWrite_append
      { st with destroyed := true,
                outstream := some (r.closedEls.length,
                  ('[' :: joinC r.curEls).length) }
      r.closedEls.length (('[' :: joinC r.curEls).length)
      ('[' :: joinC r.curEls) [']', '\n'] rfl hcurEq rfl]
    simp
  have hfin : finalize cfg st =
      { st with destroyed := true,
                disk := diskSet st.disk r.closedEls.length
                  (('[' :: joinC r.curEls) ++ [']', '\n']),
                outstream := none } := by
    unfold finalize flushOutstream
    rw [if_neg (by rw [hdes]; exact Bool.false_ne_true)]
    exact hres
  rw [hfin]
  refine ⟨rfl, rfl, rfl, rfl, ?_, ?_, ?_⟩
  · show (diskSet st.disk r.closedEls.length _).length = _
    rw [diskSet_length, hdlen]
    omega
  · intro j hj
    show diskGet (diskSet st.disk r.closedEls.length _) j = _
    rw [diskGet_set_of_ne _ (by omega)]
    exact hclosed j hj
  · show diskGet (diskSet st.disk r.closedEls.length _) _ = _
    rw [diskGet_set_self]
    simp [renderFile]

theorem mul_bound_zero (M cl cu : Nat) (hM : 1 ≤ M) (h : cl * M + cu = M)
    (h1 : 1 ≤ cu) : cl = 0 := by
  by_contra hne
  have h2 : 1 ≤ cl := Nat.one_le_iff_ne_zero.mpr hne
  have h3 : 1 * M ≤ cl * M := Nat.mul_le_mul_right M h2
  omega

theorem mul_bound_one (M cl cu : Nat) (hM : 1 ≤ M) (h : cl * M + cu = M + 1)
    (h1 : 1 ≤ cu) (h2 : cu ≤ M) : cl = 1 := by
  rcases Nat.lt_or_ge cl 2 with hlt | hge
  · interval_cases cl
    · omega
    · rfl
  · have h3 : 2 * M ≤ cl * M := Nat.mul_le_mul_right M hge
    omega

/-- Claim C2: writing N ≥ 1 valid items to a fresh default-policy engine
with maxItems = M ≥ 1 and finalizing produces exactly ceil(N/M) files;
each decodes as a JSON array of exactly M elements except possibly the
last, which holds N - M*(ceil(N/M)-1); and no second file is opened
until item M+1 arrives (after exactly M items one file exists, after
M+1 items two). -/
theorem C2_rotation_counts (cfg : Config) (v : Item → Bool)
    (items : List Item)
    (hA : cfg.append = false) (hO : cfg.overwrite = false)
    (hM : 1 ≤ cfg.maxItems) (hne : items ≠ [])
    (hgood : ∀ x ∈ items, ¬(cfg.hasValidator = true ∧ v x = false) ∧
      IsAtom (writtenOf x)) :
    (finalize cfg (writeAll cfg v (initEngine cfg []) items)).files =
      List.range ((items.length + cfg.maxItems - 1) / cfg.maxItems) ∧
    (finalize cfg (writeAll cfg v (initEngine cfg []) items)).files.length =
      (items.length + cfg.maxItems - 1) / cfg.maxItems ∧
    (∀ j, j < (items.length + cfg.maxItems - 1) / cfg.maxItems →
      ∃ els : List Content,
        diskGet (finalize cfg (writeAll cfg v (initEngine cfg []) items)).disk
          j = some (renderFile els) ∧
        decodeJsonArray (renderFile els) = some els ∧
        els.length =
          (if j + 1 = (items.length + cfg.maxItems - 1) / cfg.maxItems
           then items.length - cfg.maxItems *
             ((items.length + cfg.maxItems - 1) / cfg.maxItems - 1)
           else cfg.maxItems)) ∧
    (∀ j, (items.length + cfg.maxItems - 1) / cfg.maxItems ≤ j →
      diskGet (finalize cfg (writeAll cfg v (initEngine cfg []) items)).disk
        j = none) ∧
    (cfg.maxItems ≤ items.length →
      (writeAll cfg v (initEngine cfg [])
        (items.take cfg.maxItems)).files.length = 1) ∧
    (cfg.maxItems + 1 ≤ items.length →
      (writeAll cfg v (initEngine cfg [])
        (items.take (cfg.maxItems + 1))).files.length = 2) := by
  have hsim := sim_main cfg v items hA hO hM hne (fun x hx => (hgood x hx).1)
  obtain ⟨hFfiles, hFcount, hFdes, hFouts, hFdlen, hFclosed, hFcur⟩ :=
    finalize_of_SimInv cfg _ _ hsim
  cases items with
  | nil => exact absurd rfl hne
  | cons it rest =>
  obtain ⟨g1, g2, g3, g4, g5⟩ := refRun_ok cfg.maxItems hM (writtenOf it)
    (rest.map writtenOf)
  have hmaplen : ((it :: rest).map writtenOf).length = (it :: rest).length :=
    List.length_map _ _
  have hws : (it :: rest).map writtenOf =
      writtenOf it :: rest.map writtenOf := List.map_cons _ _ _
  rw [← hws] at g1 g2 g3 g4 g5
  have hn : (refRun cfg.maxItems ((it :: rest).map writtenOf)).closedEls.length *
      cfg.maxItems +
      (refRun cfg.maxItems ((it :: rest).map writtenOf)).curEls.length =
      (it :: rest).length := by rw [g5, hmaplen]
  obtain ⟨hK, hcu⟩ := ceil_arith cfg.maxItems _ _ _ hM g2 g3 hn
  have hatoms : ∀ x ∈ (it :: rest).map writtenOf, IsAtom x := by
    intro x hx
    obtain ⟨y, hy, rfl⟩ := List.mem_map.mp hx
    exact (hgood y hy).2
  rw [← hK]
  refine ⟨?_, ?_, ?_, ?_, ?_, ?_⟩
  · rw [hFfiles, hsim.filesEq]
  · rw [hFfiles, hsim.filesEq, List.length_range]
  · intro j hj
    rcases Nat.lt_or_ge j (refRun cfg.maxItems
        ((it :: rest).map writtenOf)).closedEls.length with hlt | hge
    · obtain ⟨els, hels⟩ : ∃ els,
          (refRun cfg.maxItems ((it :: rest).map writtenOf)).closedEls.get? j =
          some els :=
        ⟨_, List.get?_eq_get hlt⟩
      refine ⟨els, ?_, ?_, ?_⟩
      · rw [hFclosed j hlt, hels]; rfl
      · refine decodeJsonArray_renderFile els (fun x hx => ?_)
        refine hatoms x ?_
        rw [← g4]
        refine List.mem_append.mpr (Or.inl ?_)
        exact List.mem_join.mpr ⟨els, List.get?_mem hels, hx⟩
      · rw [if_neg (by omega)]
        exact g1 els (List.get?_mem hels)
    · have hj2 : j = (refRun cfg.maxItems
          ((it :: rest).map writtenOf)).closedEls.length := by omega
      subst hj2
      refine ⟨(refRun cfg.maxItems ((it :: rest).map writtenOf)).curEls,
        hFcur, ?_, ?_⟩
      · refine decodeJsonArray_renderFile _ (fun x hx => ?_)
        refine hatoms x ?_
        rw [← g4]
        exact List.mem_append.mpr (Or.inr hx)
      · rw [if_pos rfl]
        simp only [Nat.add_sub_cancel]
        exact hcu
  · intro j hj
    exact diskGet_of_le _ (by omega)
  · intro hMn
    obtain ⟨m, hm⟩ : ∃ m, cfg.maxItems = m + 1 := ⟨cfg.maxItems - 1, by omega⟩
    have htT : (it :: rest).take cfg.maxItems = it :: rest.take m := by
      rw [hm]; rfl
    have htne : (it :: rest).take cfg.maxItems ≠ [] := by
      rw [htT]; simp
    have hsimT := sim_main cfg v ((it :: rest).take cfg.maxItems) hA hO hM htne
      (fun x hx => (hgood x (List.take_subset _ _ hx)).1)
    obtain ⟨t1, t2, t3, t4, t5⟩ := refRun_ok cfg.maxItems hM (writtenOf it)
      ((rest.take m).map writtenOf)
    rw [hsimT.filesEq, List.length_range]
    have hTlen : (writtenOf it :: (rest.take m).map writtenOf).length =
        cfg.maxItems := by
      simp
      have : rest.length ≥ m := by
        have := hMn
        rw [hm] at this
        simp at this
        omega
      omega
    have hws2 : ((it :: rest).take cfg.maxItems).map writtenOf =
        writtenOf it :: (rest.take m).map writtenOf := by
      rw [htT]; rfl
    rw [hws2]
    rw [hTlen] at t5
    have hcl0 := mul_bound_zero cfg.maxItems _ _ hM t5 t2
    rw [hcl0]
  · intro hMn
    obtain ⟨m, hm⟩ : ∃ m, cfg.maxItems + 1 = m + 1 := ⟨cfg.maxItems, rfl⟩
    have htT : (it :: rest).take (cfg.maxItems + 1) =
        it :: rest.take cfg.maxItems := rfl
    have htne : (it :: rest).take (cfg.maxItems + 1) ≠ [] := by
      rw [htT]; simp
    have hsimT := sim_main cfg v ((it :: rest).take (cfg.maxItems + 1)) hA hO
      hM htne (fun x hx => (hgood x (List.take_subset _ _ hx)).1)
    obtain ⟨t1, t2, t3, t4, t5⟩ := refRun_ok cfg.maxItems hM (writtenOf it)
      ((rest.take cfg.maxItems).map writtenOf)
    rw [hsimT.filesEq, List.length_range]
    have hTlen : (writtenOf it :: (rest.take cfg.maxItems).map writtenOf).length =
        cfg.maxItems + 1 := by
      simp
      have : rest.length ≥ cfg.maxItems := by
        have := hMn
        simp at this
        omega
      omega
    have hws2 : ((it :: rest).take (cfg.maxItems + 1)).map writtenOf =
        writtenOf it :: (rest.take cfg.maxItems).map writtenOf := by
      rw [htT]; rfl
    rw [hws2]
    rw [hTlen] at t5
    have hcl1 := mul_bound_one cfg.maxItems _ _ hM t5 t2 t3
    rw [hcl1]

/-- Claim C2 witness: three single-digit items at maxItems = 2. -/
theorem C2_rotation_counts_witness :
    (finalize cfg2 (writeAll cfg2 vAll (initEngine cfg2 []) items3)).files =
      List.range ((items3.length + cfg2.maxItems - 1) / cfg2.maxItems) ∧
    (finalize cfg2 (writeAll cfg2 vAll (initEngine cfg2 []) items3)).files.length =
      (items3.length + cfg2.maxItems - 1) / cfg2.maxItems ∧
    (∀ j, j < (items3.length + cfg2.maxItems - 1) / cfg2.maxItems →
      ∃ els : List Content,
        diskGet (finalize cfg2 (writeAll cfg2 vAll (initEngine cfg2 []) items3)).disk
          j = some (renderFile els) ∧
        decodeJsonArray (renderFile els) = some els ∧
        els.length =
          (if j + 1 = (items3.length + cfg2.maxItems - 1) / cfg2.maxItems
           then items3.length - cfg2.maxItems *
             ((items3.length + cfg2.maxItems - 1) / cfg2.maxItems - 1)
           else cfg2.maxItems)) ∧
    (∀ j, (items3.length + cfg2.maxItems - 1) / cfg2.maxItems ≤ j →
      diskGet (finalize cfg2 (writeAll cfg2 vAll (initEngine cfg2 []) items3)).disk
        j = none) ∧
    (cfg2.maxItems ≤ items3.length →
      (writeAll cfg2 vAll (initEngine cfg2 [])
        (items3.take cfg2.maxItems)).files.length = 1) ∧
    (cfg2.maxItems + 1 ≤ items3.length →
      (writeAll cfg2 vAll (initEngine cfg2 [])
        (items3.take (cfg2.maxItems + 1))).files.length = 2) :=
  C2_rotation_counts cfg2 vAll items3 rfl rfl (by decide) (by decide)
    (by decide)

/-! Helper lemmas for the append-resume claim. -/

theorem probeSep_of_get? (c : Content) (ch : Char) (h3 : 3 ≤ c.length)
    (hch : c.get? (c.length - 3) = some ch) :
    probeSep c = (if ch = '[' ∨ ch = ',' then false else true) := by
  unfold probeSep
  rw [if_pos h3, hch]

theorem getLast?_cons_ne (c : Char) (e : Content) (he : e ≠ []) :
    (c :: e).getLast? = e.getLast? := by
  cases e with
  | nil => exact absurd rfl he
  | cons f fs => exact List.getLast?_cons_cons

theorem joinC_getLast? (es : List Content) (e : Content) (he : e ≠ []) :
    (joinC (es ++ [e])).getLast? = e.getLast? := by
  cases es with
  | nil => simp [joinC]
  | cons f fs =>
    rw [joinC_append_singleton (f :: fs) e (by simp)]
    rw [List.getLast?_append, getLast?_cons_ne ',' e he]
    obtain ⟨ch, hch⟩ := Option.isSome_iff_exists.mp (List.getLast?_isSome.mpr he)
    rw [hch]
    rfl

theorem renderFile_probe (es : List Content) (hne : joinC es ≠ []) :
    (renderFile es).get? ((renderFile es).length - 3) = (joinC es).getLast? := by
  obtain ⟨n, hn⟩ : ∃ n, (joinC es).length = n + 1 := by
    cases hjc : joinC es with
    | nil => exact absurd hjc hne
    | cons a l => exact ⟨l.length, by simp⟩
  have hlen : (renderFile es).length - 3 = n + 1 := by
    rw [renderFile_length, hn]
    omega
  rw [hlen]
  show ('[' :: (joinC es ++ [']', '\n'])).get? (n + 1) = _
  rw [List.get?_cons_succ, List.get?_eq_getElem?,
    List.getElem?_append_left (by omega), List.getLast?_eq_getElem?, hn]
  simp

theorem streamWrite_mid (st : EngineState) (i pos : Nat) (old s : Content)
    (ho : st.outstream = some (i, pos)) (hd : diskGet st.disk i = some old) :
    streamWrite st s =
      { st with
        disk := diskSet st.disk i
          (old.take pos ++ s ++ old.drop (pos + s.length)),
        outstream := some (i, pos + s.length) } := by
  unfold streamWrite
  rw [ho]
  simp only [hd, Option.getD_some]

theorem write_init_open_fst (cfg : Config) (v : Item → Bool) (it : Item)
    (d : Disk) (stO : EngineState)
    (hopen : openOutstream cfg
      { sep := [], count := 0, fileCount := 1, key := 0, files := [],
        destroyed := false, outstream := none, disk := d } = stO)
    (hdesO : stO.destroyed = false) (hoO : stO.outstream ≠ none)
    (hcntO : stO.count = 0) (hM : 1 ≤ cfg.maxItems)
    (hval : ¬(cfg.hasValidator = true ∧ v it = false)) :
    (write cfg v (initEngine cfg d) it).1 =
      (pushItem stO (writtenOf it) []).1 := by
  have hnrot : ¬ cfg.maxItems ≤ stO.count := by rw [hcntO]; omega
  by_cases hlz : cfg.lazy = true
  · have hinit : initEngine cfg d =
        { sep := [], count := 0, fileCount := 1, key := 0, files := [],
          destroyed := false, outstream := none, disk := d } := by
      simp [initEngine, incrementKey, hlz]
    rw [hinit]
    unfold write
    rw [if_neg (by simp)]
    unfold arrWrite
    rw [if_neg hval]
    have hlzif : (if cfg.lazy = true ∧
        ({ sep := [], count := 0, fileCount := 1, key := 0, files := [],
           destroyed := false, outstream := none,
           disk := d } : EngineState).outstream = none
        then openOutstream cfg
          { sep := [], count := 0, fileCount := 1, key := 0, files := [],
            destroyed := false, outstream := none, disk := d }
        else
          { sep := [], count := 0, fileCount := 1, key := 0, files := [],
            destroyed := false, outstream := none, disk := d }) =
        stO := by
      rw [if_pos ⟨hlz, rfl⟩, hopen]
    rw [hlzif, if_neg hnrot]
    exact pushItem_fst _ _ _ _
  · have hinit : initEngine cfg d = stO := by
      rw [← hopen]
      simp [initEngine, incrementKey, hlz]
    rw [hinit, write_open_fst cfg v stO it hdesO hoO hval, if_neg hnrot]

theorem pushItem_fst_mid (st : EngineState) (w : Content)
    (ev : List (Option WError)) (i pos : Nat) (old sp : Content)
    (ho : st.outstream = some (i, pos)) (hd : diskGet st.disk i = some old)
    (hsp : st.sep = sp) :
    (pushItem st w ev).1 =
      { st with
        disk := diskSet st.disk i
          (old.take pos ++ (sp ++ w) ++ old.drop (pos + (sp ++ w).length)),
        outstream := some (i, pos + (sp ++ w).length),
        sep := if sp = [] then [','] else sp,
        count := st.count + 1 } := by
  rw [pushItem_some_fst st w ev i pos ho,
    streamWrite_mid st i pos old (st.sep ++ w) ho hd, hsp]

theorem resetOutstream_final_mid (cfg : Config) (st : EngineState)
    (i pos : Nat) (old : Content) (ho : st.outstream = some (i, pos))
    (hd : diskGet st.disk i = some old) :
    resetOutstream cfg st true =
      { st with
        disk := diskSet st.disk i
          (old.take pos ++ [']', '\n'] ++ old.drop (pos + 2)),
        outstream := none } := by
  unfold resetOutstream
  simp only [ho]
  rw [streamWrite_mid st i pos old [']', '\n'] ho hd]
  simp

theorem finalize_mid (cfg : Config) (st : EngineState) (i pos : Nat)
    (old : Content) (hdes : st.destroyed = false)
    (ho : st.outstream = some (i, pos)) (hd : diskGet st.disk i = some old) :
    finalize cfg st =
      { st with
        destroyed := true,
        disk := diskSet st.disk i
          (old.take pos ++ [']', '\n'] ++ old.drop (pos + 2)),
        outstream := none } := by
  unfold finalize flushOutstream
  rw [if_neg (by rw [hdes]; exact Bool.false_ne_true)]
  exact resetOutstream_final_mid cfg { st with destroyed := true } i pos old
    ho hd

/-- Claim C3: opening an engine-produced well-formed k-element array
file under the append policy, writing one more valid item, and
finalizing yields a file whose decoded JSON array has k+1 elements with
the new element last. -/
theorem C3_append_resume (cfg : Config) (v : Item → Bool) (it : Item)
    (es : List Content)
    (hA : cfg.append = true) (hO : cfg.overwrite = false)
    (hM : 1 ≤ cfg.maxItems)
    (hval : ¬(cfg.hasValidator = true ∧ v it = false))
    (hats : ∀ e ∈ es, IsAtom e) (hat : IsAtom (writtenOf it)) :
    diskGet (finalize cfg (writeAll cfg v
        (initEngine cfg [some (renderFile es)]) [it])).disk 0 =
      some (renderFile (es ++ [writtenOf it])) ∧
    decodeJsonArray (renderFile (es ++ [writtenOf it])) =
      some (es ++ [writtenOf it]) ∧
    (es ++ [writtenOf it]).length = es.length + 1 ∧
    (es ++ [writtenOf it]).getLast? = some (writtenOf it) := by
  have hwne : writtenOf it ≠ [] := hat.1
  obtain ⟨sepA, hsepA, hAeq⟩ : ∃ sepA : Content,
      (if probeSep (renderFile es) then [','] else []) = sepA ∧
      ('[' :: joinC es) ++ (sepA ++ writtenOf it) =
        '[' :: joinC (es ++ [writtenOf it]) := by
    rcases List.eq_nil_or_concat es with rfl | ⟨es0, e, hconcat⟩
    case inr.intro.intro =>
      rw [List.concat_eq_append] at hconcat
      subst hconcat
      have he : IsAtom e := hats e (by simp)
      have hJne : joinC (es0 ++ [e]) ≠ [] := by
        cases es0 with
        | nil => simpa [joinC] using he.1
        | cons f fs =>
          rw [joinC_append_singleton (f :: fs) e (by simp)]
          simp
      obtain ⟨ch, hch⟩ := Option.isSome_iff_exists.mp
        (List.getLast?_isSome.mpr he.1)
      have hchJ : (joinC (es0 ++ [e])).getLast? = some ch := by
        rw [joinC_getLast? es0 e he.1, hch]
      have hne2 := atom_last_ne e he ch hch
      have hprobe : probeSep (renderFile (es0 ++ [e])) = true := by
        rw [probeSep_of_get? _ ch (by rw [renderFile_length]; omega)
          (by rw [renderFile_probe (es0 ++ [e]) hJne, hchJ])]
        rw [if_neg (by push_neg; exact hne2)]
      refine ⟨[','], by rw [hprobe]; rfl, ?_⟩
      rw [joinC_append_singleton (es0 ++ [e]) (writtenOf it) (by simp)]
      simp
    · refine ⟨[], ?_, ?_⟩
      · have hp : probeSep (renderFile []) = false := by decide
        rw [hp]
        rfl
      · simp [joinC]
  have hopenEq : openOutstream cfg
      { sep := [], count := 0, fileCount := 1, key := 0, files := [],
        destroyed := false, outstream := none,
        disk := [some (renderFile es)] } =
      { sep := sepA, count := 0, fileCount := 1, key := 0, files := [0],
        destroyed := false,
        outstream := some (0, (renderFile es).length - 2),
        disk := [some (renderFile es)] } := by
    unfold openOutstream
    rw [if_neg (fun hov => by rw [hO] at hov; exact Bool.noConfusion hov)]
    rw [if_neg (fun hand => by rw [hA] at hand; exact Bool.noConfusion hand.1)]
    have hdg : diskGet ([some (renderFile es)] : Disk) 0 =
        some (renderFile es) := rfl
    simp only [hdg]
    rw [if_neg (show ¬ (renderFile es).length < 2 by
      rw [renderFile_length]; omega)]
    rw [hsepA]
    simp
  have hwa : writeAll cfg v (initEngine cfg [some (renderFile es)]) [it] =
      (write cfg v (initEngine cfg [some (renderFile es)]) it).1 := rfl
  have hred := write_init_open_fst cfg v it [some (renderFile es)]
    { sep := sepA, count := 0, fileCount := 1, key := 0, files := [0],
      destroyed := false,
      outstream := some (0, (renderFile es).length - 2),
      disk := [some (renderFile es)] } hopenEq rfl
    (fun h => Option.noConfusion h) rfl hM hval
  have hpush := pushItem_fst_mid
    { sep := sepA, count := 0, fileCount := 1, key := 0, files := [0],
      destroyed := false,
      outstream := some (0, (renderFile es).length - 2),
      disk := [some (renderFile es)] } (writtenOf it) [] 0
    ((renderFile es).length - 2) (renderFile es) sepA rfl rfl rfl
  have hfin := finalize_mid cfg
    { sep := if sepA = [] then [','] else sepA, count := 1, fileCount := 1,
      key := 0, files := [0], destroyed := false,
      outstream := some (0, (renderFile es).length - 2 +
        (sepA ++ writtenOf it).length),
      disk := diskSet [some (renderFile es)] 0
        ((renderFile es).take ((renderFile es).length - 2) ++
          (sepA ++ writtenOf it) ++
          (renderFile es).drop ((renderFile es).length - 2 +
            (sepA ++ writtenOf it).length)) } 0
    ((renderFile es).length - 2 + (sepA ++ writtenOf it).length)
    ((renderFile es).take ((renderFile es).length - 2) ++
      (sepA ++ writtenOf it) ++
      (renderFile es).drop ((renderFile es).length - 2 +
        (sepA ++ writtenOf it).length))
    rfl rfl (diskGet_set_self _ _ _)
  have htake1 : (renderFile es).take ((renderFile es).length - 2) =
      '[' :: joinC es := by
    rw [renderFile_length]
    show ('[' :: (joinC es ++ [']', '\n'])).take ((joinC es).length + 3 - 2)
      = _
    have h32 : (joinC es).length + 3 - 2 = (joinC es).length + 1 := by omega
    rw [h32, List.take_succ_cons, List.take_left]
  have hwlen : 1 ≤ (sepA ++ writtenOf it).length := by
    have := List.length_pos.mpr hwne
    simp
    omega
  have hAlen : ('[' :: joinC (es ++ [writtenOf it])).length =
      (renderFile es).length - 2 + (sepA ++ writtenOf it).length := by
    rw [← hAeq, renderFile_length]
    simp
    omega
  have hcontent1 : (renderFile es).take ((renderFile es).length - 2) ++
      (sepA ++ writtenOf it) ++
      (renderFile es).drop ((renderFile es).length - 2 +
        (sepA ++ writtenOf it).length) =
      ('[' :: joinC (es ++ [writtenOf it])) ++
      (renderFile es).drop ((renderFile es).length - 2 +
        (sepA ++ writtenOf it).length) := by
    rw [htake1, hAeq]
  have hRlen : ((renderFile es).drop ((renderFile es).length - 2 +
      (sepA ++ writtenOf it).length)).length ≤ 1 := by
    rw [List.length_drop, renderFile_length]
    omega
  have htake2 : ((renderFile es).take ((renderFile es).length - 2) ++
      (sepA ++ writtenOf it) ++
      (renderFile es).drop ((renderFile es).length - 2 +
        (sepA ++ writtenOf it).length)).take
      ((renderFile es).length - 2 + (sepA ++ writtenOf it).length) =
      '[' :: joinC (es ++ [writtenOf it]) := by
    rw [hcontent1, ← hAlen, List.take_left]
  have hdrop2 : ((renderFile es).take ((renderFile es).length - 2) ++
      (sepA ++ writtenOf it) ++
      (renderFile es).drop ((renderFile es).length - 2 +
        (sepA ++ writtenOf it).length)).drop
      ((renderFile es).length - 2 + (sepA ++ writtenOf it).length + 2) =
      [] := by
    apply List.drop_eq_nil_of_le
    rw [hcontent1, List.length_append, hAlen]
    omega
  rw [hwa, hred, hpush, hfin, htake2, hdrop2]
  refine ⟨?_, ?_, by simp, by simp⟩
  · show diskGet (diskSet (diskSet [some (renderFile es)] 0 _) 0
      ('[' :: joinC (es ++ [writtenOf it]) ++ [']', '\n'] ++ [])) 0 = _
    rw [diskGet_set_self]
    simp [renderFile]
  · refine decodeJsonArray_renderFile _ (fun x hx => ?_)
    rcases List.mem_append.mp hx with hx | hx
    · exact hats x hx
    · simp at hx
      rw [hx]
      exact hat

/-- Claim C3 witness: resume a two-element file and append a third. -/
theorem C3_append_resume_witness :
    diskGet (finalize cfgA (writeAll cfgA vAll
        (initEngine cfgA [some (renderFile [['1'], ['2']])])
        [Item.str ['3']])).disk 0 =
      some (renderFile ([['1'], ['2']] ++ [writtenOf (Item.str ['3'])])) ∧
    decodeJsonArray (renderFile ([['1'], ['2']] ++
        [writtenOf (Item.str ['3'])])) =
      some ([['1'], ['2']] ++ [writtenOf (Item.str ['3'])]) ∧
    ([['1'], ['2']] ++ [writtenOf (Item.str ['3'])]).length =
      ([['1'], ['2']] : List Content).length + 1 ∧
    ([['1'], ['2']] ++ [writtenOf (Item.str ['3'])]).getLast? =
      some (writtenOf (Item.str ['3'])) :=
  C3_append_resume cfgA vAll (Item.str ['3']) [['1'], ['2']] rfl rfl
    (by decide) (by decide) (by decide) (by decide)

/-- Claim C1: the round-trip claim fails on the code.  A single item
whose `JSON.stringify` throws (e.g. a circular object, string-coerced
to `[object Object]`) is reported as an encoding error, yet the
fall-through after the catch writes the coerced chunk anyway: the
produced file decodes to one junk element although the subsequence of
items that passed validation and encoding is empty. -/
theorem C1_roundtrip_failure :
    (write cfg2 vAll (initEngine cfg2 [])
      (Item.obj none ("[object Object]".data))).2 =
      [some WError.encoding, none] ∧
    diskGet (finalize cfg2 (write cfg2 vAll (initEngine cfg2 [])
      (Item.obj none ("[object Object]".data))).1).disk 0 =
      some ("[[object Object]]\n".data) ∧
    decodeJsonArray ("[[object Object]]\n".data) =
      some ["[object Object]".data] ∧
    ¬ decodeJsonArray ("[[object Object]]\n".data) =
      some ([] : List Content) := by
  refine ⟨by decide, by decide, by decide, by decide⟩

/-- Claim C7: a stringify failure is reported as a recoverable encoding
error, but the missing return lets the write proceed: the coerced chunk
lands in the file, the per-file and total counters advance, and the
callback fires a second time (the `none` completion event after the
error event). -/
theorem C7_encoding_failure_mutates :
    (write cfg2 vAll (initEngine cfg2 [])
      (Item.obj none ("[object Object]".data))).2 =
      [some WError.encoding, none] ∧
    (write cfg2 vAll (initEngine cfg2 [])
      (Item.obj none ("[object Object]".data))).1.count = 1 ∧
    getTotalCount cfg2 (write cfg2 vAll (initEngine cfg2 [])
      (Item.obj none ("[object Object]".data))).1 = 1 ∧
    diskGet (write cfg2 vAll (initEngine cfg2 [])
      (Item.obj none ("[object Object]".data))).1.disk 0 =
      some ("[[object Object]".data) := by
  refine ⟨by decide, by decide, by decide, by decide⟩

/-- Claim C5: under the spec-modelled `Writable` gate, a write on a
finalized engine fails with the stream-closed error and returns the
state untouched. -/
theorem C5_write_after_close (cfg : Config) (v : Item → Bool)
    (st : EngineState) (it : Item) (hdes : st.destroyed = true) :
    write cfg v st it = (st, [some WError.closed]) := by
  unfold write
  rw [if_pos hdes]

/-- Claim C5 witness: writing a fourth item to a finalized engine. -/
theorem C5_write_after_close_witness :
    write cfg2 vAll
      (finalize cfg2 (writeAll cfg2 vAll (initEngine cfg2 []) items3))
      (Item.str ['4']) =
    (finalize cfg2 (writeAll cfg2 vAll (initEngine cfg2 []) items3),
      [some WError.closed]) :=
  C5_write_after_close cfg2 vAll
    (finalize cfg2 (writeAll cfg2 vAll (initEngine cfg2 []) items3))
    (Item.str ['4']) (by decide)

/-- On an open, non-destroyed engine, a validation failure leaves the
state exactly unchanged and reports only the validation error. -/
theorem write_invalid_noop (cfg : Config) (v : Item → Bool)
    (st : EngineState) (it : Item) (hdes : st.destroyed = false)
    (ho : st.outstream ≠ none) (hv : cfg.hasValidator = true)
    (hbad : v it = false) :
    write cfg v st it = (st, [some WError.validation]) := by
  unfold write
  rw [if_neg (by rw [hdes]; exact Bool.false_ne_true)]
  unfold arrWrite
  rw [if_pos (And.intro hv hbad)]
  rw [if_neg (fun hand => ho hand.2)]
  rw [if_neg (show ¬ st.destroyed = true by
    rw [hdes]; exact Bool.false_ne_true)]
  rfl

/-- Claim C6: an item failing validation on an engine whose current
file is open is reported as a single recoverable validation error; the
counters, the file list, the separator, the disk and the open handle
are all unchanged, and later writes proceed exactly as if the invalid
item had never been submitted. -/
theorem C6_validation_failure (cfg : Config) (v : Item → Bool)
    (st : EngineState) (it : Item) (rest : List Item)
    (hdes : st.destroyed = false) (ho : st.outstream ≠ none)
    (hv : cfg.hasValidator = true) (hbad : v it = false) :
    write cfg v st it = (st, [some WError.validation]) ∧
    (write cfg v st it).1.count = st.count ∧
    getTotalCount cfg (write cfg v st it).1 = getTotalCount cfg st ∧
    (write cfg v st it).1.files = st.files ∧
    (write cfg v st it).1.disk = st.disk ∧
    writeAll cfg v st (it :: rest) = writeAll cfg v st rest := by
  have h := write_invalid_noop cfg v st it hdes ho hv hbad
  refine ⟨h, by rw [h], by rw [h], by rw [h], by rw [h], ?_⟩
  unfold writeAll
  rw [List.foldl_cons, show (write cfg v st it).1 = st from by rw [h]]

/-- Claim C6 witness: a buffer item rejected after one accepted write. -/
theorem C6_validation_failure_witness :
    write cfgV vStr
      (write cfgV vStr (initEngine cfgV []) (Item.str ['1'])).1
      (Item.buf ['x']) =
      ((write cfgV vStr (initEngine cfgV []) (Item.str ['1'])).1,
        [some WError.validation]) ∧
    (write cfgV vStr
      (write cfgV vStr (initEngine cfgV []) (Item.str ['1'])).1
      (Item.buf ['x'])).1.count =
      (write cfgV vStr (initEngine cfgV []) (Item.str ['1'])).1.count ∧
    getTotalCount cfgV (write cfgV vStr
      (write cfgV vStr (initEngine cfgV []) (Item.str ['1'])).1
      (Item.buf ['x'])).1 =
      getTotalCount cfgV
        (write cfgV vStr (initEngine cfgV []) (Item.str ['1'])).1 ∧
    (write cfgV vStr
      (write cfgV vStr (initEngine cfgV []) (Item.str ['1'])).1
      (Item.buf ['x'])).1.files =
      (write cfgV vStr (initEngine cfgV []) (Item.str ['1'])).1.files ∧
    (write cfgV vStr
      (write cfgV vStr (initEngine cfgV []) (Item.str ['1'])).1
      (Item.buf ['x'])).1.disk =
      (write cfgV vStr (initEngine cfgV []) (Item.str ['1'])).1.disk ∧
    writeAll cfgV vStr
      (write cfgV vStr (initEngine cfgV []) (Item.str ['1'])).1
      (Item.buf ['x'] :: [Item.str ['2']]) =
    writeAll cfgV vStr
      (write cfgV vStr (initEngine cfgV []) (Item.str ['1'])).1
      [Item.str ['2']] :=
  C6_validation_failure cfgV vStr
    (write cfgV vStr (initEngine cfgV []) (Item.str ['1'])).1
    (Item.buf ['x']) [Item.str ['2']] (by decide) (by decide) rfl rfl

/-- Claim C10: with lazy = true and an empty output directory, the
first write opens the file before validation runs, so an engine that
only ever receives invalid items still records one file path and
creates exactly one on-disk file containing only `[`, while every
counter stays zero and each write reports a validation error. -/
theorem C10_lazy_open_before_validation (cfg : Config) (v : Item → Bool)
    (items : List Item) (hL : cfg.lazy = true)
    (hv : cfg.hasValidator = true) (hne : items ≠ [])
    (hbad : ∀ x ∈ items, v x = false) :
    (writeAll cfg v (initEngine cfg []) items).files = [0] ∧
    diskGet (writeAll cfg v (initEngine cfg []) items).disk 0 =
      some ['['] ∧
    (writeAll cfg v (initEngine cfg []) items).count = 0 ∧
    getTotalCount cfg (writeAll cfg v (initEngine cfg []) items) = 0 ∧
    (∀ it0, items.head? = some it0 →
      (write cfg v (initEngine cfg []) it0).2 =
        [some WError.validation]) := by
  have hfirst : ∀ it0, v it0 = false →
      write cfg v (initEngine cfg []) it0 =
      ({ sep := [], count := 0, fileCount := 1, key := 0, files := [0],
         destroyed := false, outstream := some (0, 1),
         disk := [some ['[']] }, [some WError.validation]) := by
    intro it0 hb
    have hinit : initEngine cfg [] =
        { sep := [], count := 0, fileCount := 1, key := 0, files := [],
          destroyed := false, outstream := none, disk := [] } := by
      simp [initEngine, incrementKey, hL]
    rw [hinit]
    unfold write
    rw [if_neg (by simp)]
    unfold arrWrite
    rw [if_pos ⟨hv, hb⟩]
    have hlzif : (if cfg.lazy = true ∧
        ({ sep := [], count := 0, fileCount := 1, key := 0, files := [],
           destroyed := false, outstream := none,
           disk := [] } : EngineState).outstream = none
        then openOutstream cfg
          { sep := [], count := 0, fileCount := 1, key := 0, files := [],
            destroyed := false, outstream := none, disk := [] }
        else
          { sep := [], count := 0, fileCount := 1, key := 0, files := [],
            destroyed := false, outstream := none, disk := [] }) =
        openOutstream cfg
          { sep := [], count := 0, fileCount := 1, key := 0, files := [],
            destroyed := false, outstream := none, disk := [] } :=
      if_pos ⟨hL, rfl⟩
    rw [hlzif, openFresh_init cfg]
    rfl
  have hrest : ∀ l, (∀ x ∈ l, v x = false) →
      writeAll cfg v
        { sep := [], count := 0, fileCount := 1, key := 0, files := [0],
          destroyed := false, outstream := some (0, 1),
          disk := [some ['[']] } l =
      { sep := [], count := 0, fileCount := 1, key := 0, files := [0],
        destroyed := false, outstream := some (0, 1),
        disk := [some ['[']] } := by
    intro l
    induction l with
    | nil => intro _; rfl
    | cons x xs ih =>
      intro hb
      unfold writeAll
      rw [List.foldl_cons]
      rw [show (write cfg v
        { sep := [], count := 0, fileCount := 1, key := 0, files := [0],
          destroyed := false, outstream := some (0, 1),
          disk := [some ['[']] } x).1 =
        { sep := [], count := 0, fileCount := 1, key := 0, files := [0],
          destroyed := false, outstream := some (0, 1),
          disk := [some ['[']] } from by
        rw [write_invalid_noop cfg v _ x rfl
          (fun h => Option.noConfusion h) hv (hb x (List.mem_cons_self x xs))]]
      exact ih (fun y hy => hb y (List.mem_cons_of_mem x hy))
  cases items with
  | nil => exact absurd rfl hne
  | cons it0 rest =>
    have hw0 := hfirst it0 (hbad it0 (List.mem_cons_self it0 rest))
    have hwa : writeAll cfg v (initEngine cfg []) (it0 :: rest) =
        writeAll cfg v
          { sep := [], count := 0, fileCount := 1, key := 0, files := [0],
            destroyed := false, outstream := some (0, 1),
            disk := [some ['[']] } rest := by
      unfold writeAll
      rw [List.foldl_cons, show (write cfg v (initEngine cfg []) it0).1 =
        { sep := [], count := 0, fileCount := 1, key := 0, files := [0],
          destroyed := false, outstream := some (0, 1),
          disk := [some ['[']] } from by rw [hw0]]
    rw [hwa, hrest rest (fun y hy => hbad y (List.mem_cons_of_mem it0 hy))]
    refine ⟨rfl, rfl, rfl, rfl, ?_⟩
    intro x hx
    have hx2 : it0 = x := Option.some.inj hx
    rw [← hx2, hfirst it0 (hbad it0 (List.mem_cons_self it0 rest))]

/-- Claim C10 witness: two rejected items on a fresh lazy engine. -/
theorem C10_lazy_open_before_validation_witness :
    (writeAll cfgV vNone (initEngine cfgV [])
      [Item.str ['x'], Item.str ['y']]).files = [0] ∧
    diskGet (writeAll cfgV vNone (initEngine cfgV [])
      [Item.str ['x'], Item.str ['y']]).disk 0 = some ['['] ∧
    (writeAll cfgV vNone (initEngine cfgV [])
      [Item.str ['x'], Item.str ['y']]).count = 0 ∧
    getTotalCount cfgV (writeAll cfgV vNone (initEngine cfgV [])
      [Item.str ['x'], Item.str ['y']]) = 0 ∧
    (∀ it0, ([Item.str ['x'], Item.str ['y']] : List Item).head? = some it0 →
      (write cfgV vNone (initEngine cfgV []) it0).2 =
        [some WError.validation]) :=
  C10_lazy_open_before_validation cfgV vNone
    [Item.str ['x'], Item.str ['y']] rfl rfl (by decide) (by decide)

theorem bumpLast_concat (l : List Nat) (x : Nat) :
    bumpLast (l ++ [x]) = l ++ [x + 1] := by
  unfold bumpLast
  rw [List.dropLast_concat, List.getLast?_concat]

/-- Sum of a constant list. -/
theorem sum_all_eq (l : List Nat) (M : Nat) (h : ∀ y ∈ l, y = M) :
    l.sum = l.length * M := by
  induction l with
  | nil => simp
  | cons a l ih =>
    rw [List.sum_cons, ih (fun y hy => h y (List.mem_cons_of_mem a hy)),
      h a (List.mem_cons_self a l)]
    rw [List.length_cons, Nat.succ_mul]
    omega

/-! Shape lemmas: how each engine operation changes the bookkeeping
fields, for arbitrary states. -/

theorem collideLoop_shape (fuel : Nat) : ∀ st : EngineState,
    (collideLoop st fuel).files = st.files ∧
    (collideLoop st fuel).count = st.count ∧
    (collideLoop st fuel).destroyed = st.destroyed ∧
    (collideLoop st fuel).outstream = st.outstream := by
  induction fuel with
  | zero => intro st; exact ⟨rfl, rfl, rfl, rfl⟩
  | succ fuel ih =>
    intro st
    by_cases h : diskGet st.disk st.key = none
    · simp [collideLoop, h]
    · have hstep : collideLoop st (fuel + 1) =
          collideLoop (incrementKey st) fuel := by
        simp [collideLoop, h]
      rw [hstep]
      exact ih (incrementKey st)

theorem openOutstream_shape (cfg : Config) (st : EngineState) :
    (openOutstream cfg st).files.length = st.files.length + 1 ∧
    (openOutstream cfg st).count = st.count ∧
    (openOutstream cfg st).destroyed = st.destroyed ∧
    (openOutstream cfg st).outstream ≠ none ∧
    (openOutstream cfg st).files ≠ [] := by
  unfold openOutstream
  by_cases hpol : cfg.append = false ∧ cfg.overwrite = false
  · rw [if_pos hpol]
    obtain ⟨c1, c2, c3, c4⟩ := collideLoop_shape (st.disk.length + 1) st
    by_cases hov : cfg.overwrite = true
    · simp [hov, openFresh, c1, c2, c3]
    · simp only [Bool.not_eq_true] at hov
      simp only [hov, Bool.false_eq_true, if_false]
      split
      · simp [openFresh, c1, c2, c3]
      · split
        · simp [openFresh, c1, c2, c3]
        · simp [c1, c2, c3]
  · rw [if_neg hpol]
    by_cases hov : cfg.overwrite = true
    · simp [hov, openFresh]
    · simp only [Bool.not_eq_true] at hov
      simp only [hov, Bool.false_eq_true, if_false]
      split
      · simp [openFresh]
      · split
        · simp [openFresh]
        · simp

theorem streamWrite_shape (st : EngineState) (s : Content) :
    (streamWrite st s).files = st.files ∧
    (streamWrite st s).count = st.count ∧
    (streamWrite st s).destroyed = st.destroyed := by
  unfold streamWrite
  cases h : st.outstream with
  | none => exact ⟨rfl, rfl, rfl⟩
  | some p =>
    cases p
    exact ⟨rfl, rfl, rfl⟩

theorem resetOutstream_shape (cfg : Config) (st : EngineState) :
    (resetOutstream cfg st false).files.length = st.files.length + 1 ∧
    (resetOutstream cfg st false).count = 0 ∧
    (resetOutstream cfg st false).destroyed = st.destroyed ∧
    (resetOutstream cfg st false).outstream ≠ none ∧
    (resetOutstream cfg st false).files ≠ [] := by
  unfold resetOutstream
  cases h : st.outstream with
  | none =>
    simp only [h, Bool.false_eq_true, if_false]
    obtain ⟨o1, o2, o3, o4, o5⟩ := openOutstream_shape cfg
      (incrementKey { st with count := 0, outstream := none })
    exact ⟨by rw [o1]; rfl, by rw [o2]; rfl, by rw [o3]; rfl, o4, o5⟩
  | some p =>
    cases p
    simp only [h, Bool.false_eq_true, if_false]
    obtain ⟨s1, s2, s3⟩ := streamWrite_shape st [']', '\n']
    obtain ⟨o1, o2, o3, o4, o5⟩ := openOutstream_shape cfg
      (incrementKey { streamWrite st [']', '\n'] with count := 0 })
    refine ⟨?_, by rw [o2]; rfl, ?_, o4, o5⟩
    · rw [o1]
      show (streamWrite st [']', '\n']).files.length + 1 = _
      rw [s1]
    · rw [o3]
      show (streamWrite st [']', '\n']).destroyed = _
      rw [s3]

theorem pushItem_shape_none (st : EngineState) (w : Content)
    (ev : List (Option WError)) (h : st.outstream = none) :
    (pushItem st w ev).1 = st := by
  unfold pushItem
  rw [h]

theorem pushItem_shape_some (st : EngineState) (w : Content)
    (ev : List (Option WError)) (i pos : Nat)
    (h : st.outstream = some (i, pos)) :
    (pushItem st w ev).1.files = st.files ∧
    (pushItem st w ev).1.count = st.count + 1 ∧
    (pushItem st w ev).1.destroyed = st.destroyed ∧
    (pushItem st w ev).1.outstream ≠ none := by
  unfold pushItem
  simp only [h]
  obtain ⟨s1, s2, s3⟩ := streamWrite_shape st (st.sep ++ w)
  refine ⟨s1, by rw [s2], s3, ?_⟩
  show (streamWrite st (st.sep ++ w)).outstream ≠ none
  unfold streamWrite
  simp only [h]
  exact fun hh => Option.noConfusion hh

theorem resetOutstream_final_shape (cfg : Config) (st : EngineState) :
    (resetOutstream cfg st true).files = st.files ∧
    (resetOutstream cfg st true).count = st.count ∧
    (resetOutstream cfg st true).destroyed = st.destroyed ∧
    (resetOutstream cfg st true).outstream = none := by
  unfold resetOutstream
  cases h : st.outstream with
  | none =>
    simp [h]
  | some p =>
    cases p
    obtain ⟨s1, s2, s3⟩ := streamWrite_shape st [']', '\n']
    simp [h, s1, s2, s3]

/-! Branch equations for `write` and `ghostUpd` under fixed
conditions. -/

theorem write_lazy_fst (cfg : Config) (v : Item → Bool) (st : EngineState)
    (it : Item) (hdes : st.destroyed = false) (ho : st.outstream = none)
    (hlz : cfg.lazy = true)
    (hval : ¬(cfg.hasValidator = true ∧ v it = false)) :
    (write cfg v st it).1 =
      if cfg.maxItems ≤ (openOutstream cfg st).count then
        (pushItem (resetOutstream cfg (openOutstream cfg st) false)
          (writtenOf it) []).1
      else (pushItem (openOutstream cfg st) (writtenOf it) []).1 := by
  unfold write
  rw [if_neg (by rw [hdes]; exact Bool.false_ne_true)]
  unfold arrWrite
  rw [if_neg hval]
  rw [if_pos (And.intro hlz ho)]
  by_cases hrot : cfg.maxItems ≤ (openOutstream cfg st).count
  · rw [if_pos hrot, if_pos hrot]
    exact pushItem_fst _ _ _ _
  · rw [if_neg hrot, if_neg hrot]
    exact pushItem_fst _ _ _ _

theorem write_lazy_invalid_fst (cfg : Config) (v : Item → Bool)
    (st : EngineState) (it : Item) (hdes : st.destroyed = false)
    (ho : st.outstream = none) (hlz : cfg.lazy = true)
    (hv : cfg.hasValidator = true) (hbad : v it = false) :
    (write cfg v st it).1 = openOutstream cfg st := by
  unfold write
  rw [if_neg (by rw [hdes]; exact Bool.false_ne_true)]
  unfold arrWrite
  rw [if_pos (And.intro hv hbad), if_pos (And.intro hlz ho)]

theorem write_invalid_fst2 (cfg : Config) (v : Item → Bool)
    (st : EngineState) (it : Item) (hdes : st.destroyed = false)
    (hno : ¬(cfg.lazy = true ∧ st.outstream = none))
    (hv : cfg.hasValidator = true) (hbad : v it = false) :
    (write cfg v st it).1 = st := by
  unfold write
  rw [if_neg (by rw [hdes]; exact Bool.false_ne_true)]
  unfold arrWrite
  rw [if_pos (And.intro hv hbad), if_neg hno]

theorem write_valid_none_fst (cfg : Config) (v : Item → Bool)
    (st : EngineState) (it : Item) (hdes : st.destroyed = false)
    (hno : ¬(cfg.lazy = true ∧ st.outstream = none))
    (hval : ¬(cfg.hasValidator = true ∧ v it = false))
    (hnrot : ¬ cfg.maxItems ≤ st.count) (ho : st.outstream = none) :
    (write cfg v st it).1 = st := by
  unfold write
  rw [if_neg (by rw [hdes]; exact Bool.false_ne_true)]
  unfold arrWrite
  rw [if_neg hval, if_neg hno, if_neg hnrot]
  exact pushItem_shape_none st _ _ ho

theorem ghostUpd_destroyed (cfg : Config) (v : Item → Bool)
    (st : EngineState) (wc : List Nat) (it : Item)
    (h : st.destroyed = true) : ghostUpd cfg v st wc it = wc := by
  unfold ghostUpd
  rw [if_pos h]

theorem ghostUpd_lazy_invalid (cfg : Config) (v : Item → Bool)
    (st : EngineState) (wc : List Nat) (it : Item)
    (hdes : st.destroyed = false) (ho : st.outstream = none)
    (hlz : cfg.lazy = true) (hv : cfg.hasValidator = true)
    (hbad : v it = false) :
    ghostUpd cfg v st wc it = wc ++ [0] := by
  unfold ghostUpd
  rw [if_neg (by rw [hdes]; exact Bool.false_ne_true), if_pos (And.intro hv hbad),
    if_pos (And.intro hlz ho)]

theorem ghostUpd_lazy_valid_norot (cfg : Config) (v : Item → Bool)
    (st : EngineState) (wc : List Nat) (it : Item)
    (hdes : st.destroyed = false) (ho : st.outstream = none)
    (hlz : cfg.lazy = true)
    (hval : ¬(cfg.hasValidator = true ∧ v it = false))
    (hnrot : ¬ cfg.maxItems ≤ (openOutstream cfg st).count)
    (i pos : Nat) (ho1 : (openOutstream cfg st).outstream = some (i, pos)) :
    ghostUpd cfg v st wc it = bumpLast (wc ++ [0]) := by
  unfold ghostUpd
  rw [if_neg (by rw [hdes]; exact Bool.false_ne_true), if_neg hval,
    if_pos (And.intro hlz ho), if_pos (And.intro hlz ho), if_neg hnrot]
  rw [ho1]

theorem ghostUpd_nolazy_invalid (cfg : Config) (v : Item → Bool)
    (st : EngineState) (wc : List Nat) (it : Item)
    (hdes : st.destroyed = false)
    (hno : ¬(cfg.lazy = true ∧ st.outstream = none))
    (hv : cfg.hasValidator = true) (hbad : v it = false) :
    ghostUpd cfg v st wc it = wc := by
  unfold ghostUpd
  rw [if_neg (by rw [hdes]; exact Bool.false_ne_true), if_pos (And.intro hv hbad),
    if_neg hno]

theorem ghostUpd_nolazy_none_valid (cfg : Config) (v : Item → Bool)
    (st : EngineState) (wc : List Nat) (it : Item)
    (hdes : st.destroyed = false)
    (hno : ¬(cfg.lazy = true ∧ st.outstream = none))
    (hval : ¬(cfg.hasValidator = true ∧ v it = false))
    (hnrot : ¬ cfg.maxItems ≤ st.count) (ho : st.outstream = none) :
    ghostUpd cfg v st wc it = wc := by
  unfold ghostUpd
  rw [if_neg (by rw [hdes]; exact Bool.false_ne_true), if_neg hval,
    if_neg hno, if_neg hno, if_neg hnrot, ho]

theorem ghostUpd_nolazy_some_norot (cfg : Config) (v : Item → Bool)
    (st : EngineState) (wc : List Nat) (it : Item)
    (hdes : st.destroyed = false)
    (hno : ¬(cfg.lazy = true ∧ st.outstream = none))
    (hval : ¬(cfg.hasValidator = true ∧ v it = false))
    (hnrot : ¬ cfg.maxItems ≤ st.count) (i pos : Nat)
    (ho : st.outstream = some (i, pos)) :
    ghostUpd cfg v st wc it = bumpLast wc := by
  unfold ghostUpd
  rw [if_neg (by rw [hdes]; exact Bool.false_ne_true), if_neg hval,
    if_neg hno, if_neg hno, if_neg hnrot, ho]

theorem ghostUpd_nolazy_rot (cfg : Config) (v : Item → Bool)
    (st : EngineState) (wc : List Nat) (it : Item)
    (hdes : st.destroyed = false)
    (hno : ¬(cfg.lazy = true ∧ st.outstream = none))
    (hval : ¬(cfg.hasValidator = true ∧ v it = false))
    (hrot : cfg.maxItems ≤ st.count) (j q : Nat)
    (hro : (resetOutstream cfg st false).outstream = some (j, q)) :
    ghostUpd cfg v st wc it = bumpLast (wc ++ [0]) := by
  unfold ghostUpd
  rw [if_neg (by rw [hdes]; exact Bool.false_ne_true), if_neg hval,
    if_neg hno, if_neg hno, if_pos hrot, hro]

/-- Pushing one item into a state with an open stream bumps the last
ghost count and preserves the rotation invariant. -/
theorem GhostInv_push (cfg : Config) (s : EngineState) (u : List Nat)
    (w : Content) (ev : List (Option WError)) (i pos : Nat)
    (ho : s.outstream = some (i, pos))
    (hlen : u.length = s.files.length)
    (hfull : ∀ y ∈ u.dropLast, y = cfg.maxItems)
    (hcnt : s.count < cfg.maxItems)
    (hlast : u ≠ [] → u.getLast? = some s.count)
    (hdes : s.destroyed = false) (hfiles : s.files ≠ []) :
    GhostInv cfg (pushItem s w ev).1 (bumpLast u) := by
  have hune : u ≠ [] := by
    intro h
    subst h
    exact hfiles (List.eq_nil_of_length_eq_zero hlen.symm)
  rcases List.eq_nil_or_concat u with h0 | ⟨l, c, hc⟩
  · exact absurd h0 hune
  rw [List.concat_eq_append] at hc
  subst hc
  have hcc : c = s.count := Option.some.inj (by
    have hx := hlast (by simp)
    rwa [List.getLast?_concat] at hx)
  simp only [List.dropLast_concat] at hfull
  obtain ⟨p1, p2, p3, p4⟩ := pushItem_shape_some s w ev i pos ho
  rw [bumpLast_concat]
  refine ⟨?_, ?_, ?_, ?_, ?_, ?_, ?_⟩
  · rw [p1, ← hlen]
    simp
  · rw [List.dropLast_concat]
    exact hfull
  · rw [p2]
    omega
  · intro _
    rw [List.getLast?_concat, p2, hcc]
  · intro h
    exact absurd h (by simp)
  · intro _ ho2
    exact absurd ho2 p4
  · intro _
    rw [p1]
    exact hfiles

/-- One `write` preserves the rotation invariant between the engine
state and the ghost per-file counts. -/
theorem GhostInv_write (cfg : Config) (v : Item → Bool)
    (hM : 1 ≤ cfg.maxItems) (st : EngineState) (wc : List Nat) (it : Item)
    (hinv : GhostInv cfg st wc) :
    GhostInv cfg (write cfg v st it).1 (ghostUpd cfg v st wc it) := by
  obtain ⟨hlen, hfull, hcntle, hlast, hnil0, hunop, hop⟩ := hinv
  by_cases hdes : st.destroyed = true
  · have h1 : (write cfg v st it).1 = st := by simp [write, hdes]
    rw [h1, ghostUpd_destroyed cfg v st wc it hdes]
    exact ⟨hlen, hfull, hcntle, hlast, hnil0, hunop, hop⟩
  · have hdesf : st.destroyed = false := by
      cases hx : st.destroyed
      · rfl
      · exact absurd hx hdes
    by_cases hopen : cfg.lazy = true ∧ st.outstream = none
    · have hfiles0 : st.files = [] := hunop hdesf hopen.2
      have hwc0 : wc = [] := by
        apply List.eq_nil_of_length_eq_zero
        rw [hlen, hfiles0]
        rfl
      subst hwc0
      have hcnt0 : st.count = 0 := hnil0 rfl
      obtain ⟨o1, o2, o3, o4, o5⟩ := openOutstream_shape cfg st
      rcases ho1 : (openOutstream cfg st).outstream with _ | ⟨i, pos⟩
      · exact absurd ho1 o4
      by_cases hval : cfg.hasValidator = true ∧ v it = false
      · rw [write_lazy_invalid_fst cfg v st it hdesf hopen.2 hopen.1
            hval.1 hval.2,
          ghostUpd_lazy_invalid cfg v st [] it hdesf hopen.2 hopen.1
            hval.1 hval.2]
        refine ⟨?_, ?_, ?_, ?_, ?_, ?_, ?_⟩
        · rw [o1, hfiles0]
          rfl
        · simp
        · rw [o2, hcnt0]
          omega
        · intro _
          rw [o2, hcnt0]
          simp
        · intro h
          exact absurd h (by simp)
        · intro _ hno
          exact absurd hno o4
        · intro _
          exact o5
      · have hnrot : ¬ cfg.maxItems ≤ (openOutstream cfg st).count := by
          rw [o2, hcnt0]
          omega
        rw [write_lazy_fst cfg v st it hdesf hopen.2 hopen.1 hval,
          if_neg hnrot,
          ghostUpd_lazy_valid_norot cfg v st [] it hdesf hopen.2 hopen.1
            hval hnrot i pos ho1]
        refine GhostInv_push cfg (openOutstream cfg st) ([] ++ [0])
          (writtenOf it) [] i pos ho1 ?_ ?_ ?_ ?_ ?_ o5
        · rw [o1, hfiles0]
          rfl
        · simp
        · rw [o2, hcnt0]
          omega
        · intro _
          rw [o2, hcnt0]
          simp
        · rw [o3]
          exact hdesf
    · rcases houts : st.outstream with _ | ⟨i, pos⟩
      · have hfiles0 : st.files = [] := hunop hdesf houts
        have hwc0 : wc = [] := by
          apply List.eq_nil_of_length_eq_zero
          rw [hlen, hfiles0]
          rfl
        subst hwc0
        have hcnt0 : st.count = 0 := hnil0 rfl
        by_cases hval : cfg.hasValidator = true ∧ v it = false
        · rw [write_invalid_fst2 cfg v st it hdesf hopen hval.1 hval.2,
            ghostUpd_nolazy_invalid cfg v st [] it hdesf hopen
              hval.1 hval.2]
          exact ⟨hlen, hfull, hcntle, hlast, hnil0, hunop, hop⟩
        · have hnrot : ¬ cfg.maxItems ≤ st.count := by
            rw [hcnt0]
            omega
          rw [write_valid_none_fst cfg v st it hdesf hopen hval hnrot houts,
            ghostUpd_nolazy_none_valid cfg v st [] it hdesf hopen hval
              hnrot houts]
          exact ⟨hlen, hfull, hcntle, hlast, hnil0, hunop, hop⟩
      · have hone : st.outstream ≠ none := by
          rw [houts]
          exact fun h => Option.noConfusion h
        have hfne : st.files ≠ [] := hop hone
        have hwcne : wc ≠ [] := by
          intro h
          subst h
          exact hfne (List.eq_nil_of_length_eq_zero hlen.symm)
        by_cases hval : cfg.hasValidator = true ∧ v it = false
        · rw [write_invalid_fst2 cfg v st it hdesf hopen hval.1 hval.2,
            ghostUpd_nolazy_invalid cfg v st wc it hdesf hopen
              hval.1 hval.2]
          exact ⟨hlen, hfull, hcntle, hlast, hnil0, hunop, hop⟩
        · by_cases hrot : cfg.maxItems ≤ st.count
          · obtain ⟨r1, r2, r3, r4, r5⟩ := resetOutstream_shape cfg st
            rcases hro : (resetOutstream cfg st false).outstream
              with _ | ⟨j, q⟩
            · exact absurd hro r4
            rw [write_open_fst cfg v st it hdesf hone hval, if_pos hrot,
              ghostUpd_nolazy_rot cfg v st wc it hdesf hopen hval hrot
                j q hro]
            have hwcall : ∀ y ∈ wc, y = cfg.maxItems := by
              rcases List.eq_nil_or_concat wc with h0 | ⟨l, c, hc⟩
              · exact absurd h0 hwcne
              rw [List.concat_eq_append] at hc
              subst hc
              have hcc : c = st.count := Option.some.inj (by
                have hx := hlast (by simp)
                rwa [List.getLast?_concat] at hx)
              have hcM : c = cfg.maxItems := by
                rw [hcc]
                exact Nat.le_antisymm hcntle hrot
              simp only [List.dropLast_concat] at hfull
              intro y hy
              rcases List.mem_append.mp hy with hyl | hyc
              · exact hfull y hyl
              · rw [List.mem_singleton.mp hyc]
                exact hcM
            refine GhostInv_push cfg (resetOutstream cfg st false)
              (wc ++ [0]) (writtenOf it) [] j q hro ?_ ?_ ?_ ?_ ?_ r5
            · rw [r1, ← hlen]
              simp
            · rw [List.dropLast_concat]
              exact hwcall
            · rw [r2]
              omega
            · intro _
              rw [List.getLast?_concat, r2]
            · rw [r3]
              exact hdesf
          · rw [write_open_fst cfg v st it hdesf hone hval, if_neg hrot,
              ghostUpd_nolazy_some_norot cfg v st wc it hdesf hopen hval
                hrot i pos houts]
            exact GhostInv_push cfg st wc (writtenOf it) [] i pos houts
              hlen hfull (Nat.lt_of_not_le hrot) hlast hdesf hfne

/-- Finalization preserves the rotation invariant. -/
theorem GhostInv_final (cfg : Config) (st : EngineState) (wc : List Nat)
    (hinv : GhostInv cfg st wc) : GhostInv cfg (finalize cfg st) wc := by
  obtain ⟨hlen, hfull, hcntle, hlast, hnil0, hunop, hop⟩ := hinv
  unfold finalize flushOutstream
  by_cases hdes : st.destroyed = true
  · rw [if_pos hdes]
    exact ⟨hlen, hfull, hcntle, hlast, hnil0, hunop, hop⟩
  · rw [if_neg hdes, if_pos rfl]
    obtain ⟨f1, f2, f3, f4⟩ :=
      resetOutstream_final_shape cfg { st with destroyed := true }
    refine ⟨?_, hfull, ?_, ?_, ?_, ?_, ?_⟩
    · rw [f1]
      exact hlen
    · rw [f2]
      exact hcntle
    · intro h
      rw [f2]
      exact hlast h
    · intro h
      rw [f2]
      exact hnil0 h
    · intro hd
      rw [f3] at hd
      exact absurd hd (by simp)
    · intro hne
      rw [f4] at hne
      exact absurd rfl hne

/-- The engine starts in the rotation invariant: no counts with lazy
construction, a single zero count with an eager open. -/
theorem GhostInv_init (cfg : Config) (d : Disk) :
    GhostInv cfg (initEngine cfg d) (if cfg.lazy then [] else [0]) := by
  cases hl : cfg.lazy with
  | true =>
    have he : initEngine cfg d =
        incrementKey ⟨[], 0, 0, 0, [], false, none, d⟩ := by
      simp [initEngine, hl]
    rw [he]
    show GhostInv cfg _ []
    refine ⟨rfl, ?_, Nat.zero_le _, ?_, fun _ => rfl, fun _ _ => rfl, ?_⟩
    · intro y hy
      simp at hy
    · intro h
      exact absurd rfl h
    · intro hne
      exact absurd rfl hne
  | false =>
    have he : initEngine cfg d =
        openOutstream cfg (incrementKey ⟨[], 0, 0, 0, [], false, none, d⟩) := by
      simp [initEngine, hl]
    rw [he]
    show GhostInv cfg _ [0]
    obtain ⟨o1, o2, o3, o4, o5⟩ := openOutstream_shape cfg
      (incrementKey ⟨[], 0, 0, 0, [], false, none, d⟩)
    refine ⟨?_, ?_, ?_, ?_, ?_, ?_, ?_⟩
    · rw [o1]
      rfl
    · intro y hy
      simp at hy
    · rw [o2]
      exact Nat.zero_le _
    · intro _
      rw [o2]
      rfl
    · intro h
      exact absurd h (by simp)
    · intro _ hno
      exact absurd hno o4
    · intro _
      exact o5

/-- Every reachable state satisfies the rotation invariant. -/
theorem GhostInv_reach (cfg : Config) (v : Item → Bool)
    (hM : 1 ≤ cfg.maxItems) (st : EngineState) (wc : List Nat)
    (hr : Reach cfg v st wc) : GhostInv cfg st wc := by
  induction hr with
  | init d => exact GhostInv_init cfg d
  | step it _ ih => exact GhostInv_write cfg v hM _ _ it ih
  | final _ ih => exact GhostInv_final cfg _ _ ih

/-- The invariant makes `getTotalCount` compute the sum of the ghost
counts. -/
theorem GhostInv_total (cfg : Config) (st : EngineState) (wc : List Nat)
    (hM : 1 ≤ cfg.maxItems) (hinv : GhostInv cfg st wc) :
    getTotalCount cfg st = wc.sum := by
  obtain ⟨hlen, hfull, hcntle, hlast, hnil0, _, _⟩ := hinv
  rcases List.eq_nil_or_concat wc with hnil | ⟨l, c, hc⟩
  · subst hnil
    have hf : ¬ 1 < st.files.length := by
      rw [← hlen]
      simp
    unfold getTotalCount
    rw [if_neg hf, hnil0 rfl]
    rfl
  · rw [List.concat_eq_append] at hc
    subst hc
    have hcc : c = st.count := Option.some.inj (by
      have hx := hlast (by simp)
      rwa [List.getLast?_concat] at hx)
    have hl : ∀ y ∈ l, y = cfg.maxItems := by
      simp only [List.dropLast_concat] at hfull
      exact hfull
    have hsum : (l ++ [c]).sum = l.length * cfg.maxItems + st.count := by
      rw [List.sum_append, sum_all_eq l _ hl, hcc]
      simp
    have hfl : st.files.length = l.length + 1 := by
      rw [← hlen]
      simp
    unfold getTotalCount
    by_cases h1 : 1 < st.files.length
    · rw [if_pos h1, hsum, hfl]
      simp
    · rw [if_neg h1]
      have hl0 : l = [] := by
        apply List.eq_nil_of_length_eq_zero
        omega
      subst hl0
      rw [hsum]
      simp

/-- Claim C8: in every reachable engine state, paired with its ghost
per-file written counts, the reported lifetime total `getTotalCount`
equals the sum of the per-file counts over `files`; every non-current
file's count equals `maxItems`; so with more than one file the total is
`(files - 1) * maxItems + count`, and otherwise it is `count`. -/
theorem C8_total_count (cfg : Config) (v : Item → Bool)
    (st : EngineState) (wc : List Nat) (hM : 1 ≤ cfg.maxItems)
    (hr : Reach cfg v st wc) :
    getTotalCount cfg st = wc.sum ∧
    (∀ y ∈ wc.dropLast, y = cfg.maxItems) ∧
    wc.length = st.files.length ∧
    (1 < st.files.length →
      getTotalCount cfg st =
        (st.files.length - 1) * cfg.maxItems + st.count) ∧
    (st.files.length ≤ 1 → getTotalCount cfg st = st.count) := by
  have hinv := GhostInv_reach cfg v hM st wc hr
  refine ⟨GhostInv_total cfg st wc hM hinv, hinv.full, hinv.len, ?_, ?_⟩
  · intro h1
    unfold getTotalCount
    rw [if_pos h1]
  · intro hle
    unfold getTotalCount
    rw [if_neg (by omega)]

theorem C8_total_count_witness :
    1 ≤ cfg2.maxItems ∧
    getTotalCount cfg2
        (write cfg2 vAll (initEngine cfg2 []) (Item.str ['1'])).1 =
      (ghostUpd cfg2 vAll (initEngine cfg2 [])
        (if cfg2.lazy then [] else [0]) (Item.str ['1'])).sum :=
  ⟨by decide, (C8_total_count cfg2 vAll _ _ (by decide)
    (Reach.step (Item.str ['1']) (Reach.init []))).1⟩

end ArrayStream
